import Mathlib

/-!
# InMemoryDB: operators, scheduler and optimizer rules

A shallow embedding of the parts of the repository that the specification
talks about:

* `AbstractOperator` (`src/lib/operators/abstract_operator.cpp`): operators live
  in a heap (a list, the index of an operator is its address), inputs are
  indices into that heap, the transaction context is a weak pointer into a list
  of context slots;
* `NodeQueueScheduler` (`src/lib/scheduler/node_queue_scheduler.cpp`);
* the optimizer rules exercised by `src/test/optimizer/strategy/*_test.cpp`.

Assertions made with `DebugAssert` are only checked in debug builds; every
function that contains one takes the build mode `IS_DEBUG` and returns in
`Except String`, an assertion that fails being `Except.error`.
-/

namespace opossum

/-! ## Tables and transaction contexts -/

/-- A materialized table, as far as the operators look at it: the number of
columns and the sizes of its chunks (`chunk_count()` is the length of the list,
`get_chunk(i)->size()` its `i`-th entry). -/
structure Table where
  column_count : Nat
  chunks : List Nat
deriving DecidableEq, Repr

/-- Modelled from the spec: the transaction context (`concurrency/transaction_context.hpp`
is not among the sources). It has an `aborted` flag and an `operator_counter`
that equals the number of in-flight operators under this context. -/
structure TransactionContext where
  aborted : Bool
  operator_counter : Nat
deriving DecidableEq, Repr

/-- Modelled from the spec: `on_operator_started()` counts one more in-flight
operator. -/
def TransactionContext.on_operator_started (c : TransactionContext) : TransactionContext :=
  { c with operator_counter := c.operator_counter + 1 }

/-- Modelled from the spec: `on_operator_finished()` counts one in-flight
operator less. -/
def TransactionContext.on_operator_finished (c : TransactionContext) : TransactionContext :=
  { c with operator_counter := c.operator_counter - 1 }

/-! ## Operators -/

/-- The state of an `AbstractOperator`: `_type`, the two input pointers (indices
into the operator heap, `none` for a null pointer), the output table and
`_transaction_context`, a `std::optional<std::weak_ptr<TransactionContext>>`
(the weak pointer is the index of a context slot). -/
structure AbstractOperator where
  _type : Nat
  _input_left : Option Nat
  _input_right : Option Nat
  _output : Option Table
  _transaction_context : Option Nat
deriving DecidableEq, Repr

/-- A literal value, as far as the model needs it: null, an integer or a string
(floating point literals are left out). -/
inductive AllTypeVariant where
  | null
  | int (v : Int)
  | string (s : String)
deriving DecidableEq, Repr

/-- The map from parameter IDs to literal values
(`std::unordered_map<ParameterID, AllTypeVariant>`), as an association list. -/
abbrev Parameters := List (Nat × AllTypeVariant)

/-- A call of a virtual hook or of a method of the transaction context, recorded
in the order in which the base class makes it. -/
inductive HookCall where
  | on_operator_started (ctx : Nat)
  | on_operator_finished (ctx : Nat)
  | _on_execute (op : Nat) (ctx : Option Nat) (result : Option Table)
  | _on_cleanup (op : Nat)
  | _on_recreate (op : Nat) (left right : Option Nat) (result : Nat)
  | _on_set_transaction_context (op : Nat) (ctx : Nat)
  | _on_set_parameters (op : Nat) (parameters : Parameters)
deriving DecidableEq, Repr

/-- The heap of operators, the context slots (`none` is a context that has been
destroyed, so that a weak pointer to it is expired) and the calls made so far. -/
structure World where
  operators : List AbstractOperator
  contexts : List (Option TransactionContext)
  calls : List HookCall
deriving DecidableEq, Repr

/-- The virtual `_on_execute` of the concrete operators: what the operator at an
address returns when it is run with a locked context (or `nullptr`) in a world.
The result is a `std::shared_ptr<const Table>`, which may be null. -/
structure Hooks where
  _on_execute : Nat → Option Nat → World → Option Table

/-- The macro `DebugAssert(expr, msg)` (`utils/assert.hpp`): in a debug build the expression
is evaluated and the assertion fails unless it is true; in a release build the
expression is not evaluated at all. -/
def DebugAssert (IS_DEBUG : Bool) (expr : Except String Bool) (msg : String) :
    Except String Unit :=
  if IS_DEBUG then
    match expr with
    | .ok true => .ok ()
    | .ok false => .error msg
    | .error e => .error e
  else .ok ()

/-- The lambda inside the first `DebugAssert` of `get_output()`. -/
def empty_chunk_check (_output : Option Table) : Bool :=
  match _output with
  | none => true
  | some t =>
    if t.chunks.length ≤ 1 then true
    else if t.chunks.any (fun size => decide (size < 1)) then true
    else true

/-- The method `AbstractOperator::get_output()` of the operator at address `this`. -/
def get_output (IS_DEBUG : Bool) (w : World) (this : Nat) : Except String (Option Table) :=
  match w.operators[this]? with
  | none => .error "null operator"
  | some op => do
    DebugAssert IS_DEBUG (.ok (empty_chunk_check op._output)) "Empty chunk returned from operator"
    DebugAssert IS_DEBUG
      (.ok (match op._output with
            | none => true
            | some t => decide (t.column_count > 0)))
      "Operator did not output any columns"
    pure op._output

/-- The method `AbstractOperator::clear_output()`. -/
def clear_output (w : World) (this : Nat) : Except String World :=
  match w.operators[this]? with
  | none => .error "null operator"
  | some op => .ok { w with operators := w.operators.set this { op with _output := none } }

/-- The call `std::weak_ptr::expired()` of the weak pointer `p`. -/
def expired (w : World) (p : Nat) : Bool :=
  match w.contexts[p]? with
  | some (some _) => false
  | _ => true

/-- The call `std::weak_ptr::lock()`: the context slot when it is alive, else `nullptr`. -/
def lock (w : World) (p : Nat) : Option Nat :=
  if expired w p then none else some p

/-- The method `AbstractOperator::transaction_context_is_set()`. -/
def transaction_context_is_set (op : AbstractOperator) : Bool :=
  op._transaction_context.isSome

/-- What `transaction_context()` hands out: `_transaction_context->lock()` when
the context is set, `nullptr` otherwise. -/
def locked_context (w : World) (op : AbstractOperator) : Option Nat :=
  match op._transaction_context with
  | none => none
  | some p => lock w p

/-- The method `AbstractOperator::transaction_context()`. -/
def transaction_context (IS_DEBUG : Bool) (w : World) (op : AbstractOperator) :
    Except String (Option Nat) := do
  DebugAssert IS_DEBUG
    (.ok (match op._transaction_context with
          | none => true
          | some p => !expired w p))
    "TransactionContext is expired, but SQL Query Executor should still own it"
  pure (locked_context w op)

/-- The call `TransactionContext::aborted()` through a locked pointer. -/
def aborted (w : World) (c : Nat) : Bool :=
  match w.contexts[c]? with
  | some (some ctx) => ctx.aborted
  | _ => false

/-- Apply a method of the transaction context through a locked pointer. -/
def update_context (w : World) (c : Nat) (f : TransactionContext → TransactionContext) :
    World :=
  match w.contexts[c]? with
  | some (some ctx) => { w with contexts := w.contexts.set c (some (f ctx)) }
  | _ => w

/-- Record a call. -/
def record (w : World) (e : HookCall) : World :=
  { w with calls := w.calls ++ [e] }

/-- The assignment `_output = table` of the operator at `this`. -/
def set_output (w : World) (this : Nat) (table : Option Table) : World :=
  match w.operators[this]? with
  | none => w
  | some op => { w with operators := w.operators.set this { op with _output := table } }

/-- The three `DebugAssert`s at the head of `execute()`. -/
def execute_asserts (IS_DEBUG : Bool) (w : World) (op : AbstractOperator) :
    Except String Unit := do
  DebugAssert IS_DEBUG
    (match op._input_left with
     | none => .ok true
     | some l => (get_output IS_DEBUG w l).map Option.isSome)
    "Left input has not yet been executed"
  DebugAssert IS_DEBUG
    (match op._input_right with
     | none => .ok true
     | some r => (get_output IS_DEBUG w r).map Option.isSome)
    "Right input has not yet been executed"
  DebugAssert IS_DEBUG (.ok op._output.isNone) "Operator has already been executed"

/-- The method `AbstractOperator::execute()` of the operator at address `this`. The wall
time written to `_base_performance_data` is not part of the model. -/
def execute (IS_DEBUG : Bool) (hooks : Hooks) (w : World) (this : Nat) : Except String World :=
  match w.operators[this]? with
  | none => .error "null operator"
  | some op => do
    execute_asserts IS_DEBUG w op
    let transaction_context ← transaction_context IS_DEBUG w op
    match transaction_context with
    | some c =>
      if aborted w c then
        pure w
      else
        let w1 := record (update_context w c TransactionContext.on_operator_started)
          (.on_operator_started c)
        let table := hooks._on_execute this (some c) w1
        let w2 := set_output (record w1 (._on_execute this (some c) table)) this table
        let w3 := record (update_context w2 c TransactionContext.on_operator_finished)
          (.on_operator_finished c)
        pure (record w3 (._on_cleanup this))
    | none =>
      let table := hooks._on_execute this none w
      let w2 := set_output (record w (._on_execute this none table)) this table
      pure (record w2 (._on_cleanup this))

/-- The precondition of `execute()` that its assertions state: every input that
is present has an output (with at least one column, as `get_output()` asserts),
and the operator has no output yet. -/
def execute_preconditions (w : World) (op : AbstractOperator) : Prop :=
  (∀ l, op._input_left = some l →
      ∃ i t, w.operators[l]? = some i ∧ i._output = some t ∧ 0 < t.column_count) ∧
  (∀ r, op._input_right = some r →
      ∃ i t, w.operators[r]? = some i ∧ i._output = some t ∧ 0 < t.column_count) ∧
  op._output = none

/-- The `_output` field of the operator at `this` (null also when there is no such
operator). -/
def stored_output (w : World) (this : Nat) : Option Table :=
  match w.operators[this]? with
  | some op => op._output
  | none => none

/-- The method `AbstractOperator::set_transaction_context()` of the operator at `this`: the
weak pointer is stored and `_on_set_transaction_context` is called. -/
def set_transaction_context (w : World) (this : Nat) (transaction_context : Nat) : World :=
  match w.operators[this]? with
  | none => w
  | some op =>
    record
      { w with operators :=
          w.operators.set this { op with _transaction_context := some transaction_context } }
      (._on_set_transaction_context this transaction_context)

/-- Modelled from the spec: the hook `on_recreate(left, right) → new operator` is
pure virtual in `AbstractOperator` and its overrides are not among the sources.
It allocates a new operator (at the end of the heap) of the type of `op` with the
two given inputs, no output and no transaction context, and returns its
address. -/
def _on_recreate (w : World) (this : Nat) (op : AbstractOperator)
    (recreated_input_left recreated_input_right : Option Nat) : World × Nat :=
  let recreated_op := w.operators.length
  (record
    { w with operators := w.operators ++
        [{ _type := op._type, _input_left := recreated_input_left,
           _input_right := recreated_input_right, _output := none,
           _transaction_context := none }] }
    (._on_recreate this recreated_input_left recreated_input_right recreated_op),
   recreated_op)

/-- The map `recreated_ops` from the address of an operator to its copy
(`std::unordered_map`), as an association list; `find` is `List.lookup`. -/
abbrev RecreatedOps := List (Nat × Nat)

/-- The call `std::unordered_map::emplace`: nothing is inserted when the key is present. -/
def RecreatedOps.emplace (recreated_ops : RecreatedOps) (key value : Nat) : RecreatedOps :=
  match recreated_ops.lookup key with
  | some _ => recreated_ops
  | none => (key, value) :: recreated_ops

/-- The expression `input ? input->_recreate_impl(recreated_ops) : nullptr`, for a
given `_recreate_impl`. -/
def recreate_input (impl : World → RecreatedOps → Nat → Option (World × RecreatedOps × Nat))
    (w : World) (recreated_ops : RecreatedOps) :
    Option Nat → Option (World × RecreatedOps × Option Nat)
  | none => some (w, recreated_ops, none)
  | some input =>
    match impl w recreated_ops input with
    | none => none
    | some (w', recreated_ops', copy) => some (w', recreated_ops', some copy)

/-- The two statements of `_recreate_impl` that make the copy: `_on_recreate` with
the copied inputs, then `set_transaction_context` on the copy when the original
has a transaction context. -/
def recreated_op (w : World) (this : Nat) (op : AbstractOperator)
    (copied_input_left recreated_input_right : Option Nat) : World × Nat :=
  let created := _on_recreate w this op copied_input_left recreated_input_right
  match op._transaction_context with
  | some p => (set_transaction_context created.1 created.2 p, created.2)
  | none => created

/-- The method `AbstractOperator::_recreate_impl` of the operator at `this`. The recursion of
the source is bounded by `fuel`: the result is `none` when the fuel runs out (or
when a pointer does not lead to an operator). -/
def _recreate_impl : Nat → World → RecreatedOps → Nat → Option (World × RecreatedOps × Nat)
  | 0, _, _, _ => none
  | fuel + 1, w, recreated_ops, this =>
    match recreated_ops.lookup this with
    | some recreated => some (w, recreated_ops, recreated)
    | none =>
      match w.operators[this]? with
      | none => none
      | some op =>
        match recreate_input (_recreate_impl fuel) w recreated_ops op._input_left with
        | none => none
        | some (w1, recreated_ops1, copied_input_left) =>
          match recreate_input (_recreate_impl fuel) w1 recreated_ops1 op._input_right with
          | none => none
          | some (w2, recreated_ops2, recreated_input_right) =>
            let created := recreated_op w2 this op copied_input_left recreated_input_right
            some (created.1, recreated_ops2.emplace this created.2, created.2)

/-- The method `AbstractOperator::recreate()` of the operator at `this`: the new world and the
address of the copy. -/
def recreate (fuel : Nat) (w : World) (this : Nat) : Option (World × Nat) :=
  match _recreate_impl fuel w [] this with
  | none => none
  | some (w', _, recreated) => some (w', recreated)

/-- The operator at `i` is reachable from the operator at `root` through left and
right inputs. -/
inductive Reachable (w : World) (root : Nat) : Nat → Prop where
  | root : Reachable w root root
  | left (i l : Nat) (op : AbstractOperator) :
      Reachable w root i → w.operators[i]? = some op → op._input_left = some l →
      Reachable w root l
  | right (i r : Nat) (op : AbstractOperator) :
      Reachable w root i → w.operators[i]? = some op → op._input_right = some r →
      Reachable w root r

/-- An operator heap is an acyclic graph: every input pointer leads to an
operator, and `rank` decreases along every input edge. -/
def AcyclicDAG (w : World) (rank : Nat → Nat) : Prop :=
  ∀ i op, w.operators[i]? = some op →
    ∀ j, (op._input_left = some j ∨ op._input_right = some j) →
      j < w.operators.length ∧ rank j < rank i

/-- The operators for which `_on_recreate` has been called, in the order of the
calls. -/
def recreate_calls : List HookCall → List Nat
  | [] => []
  | ._on_recreate op _ _ _ :: rest => op :: recreate_calls rest
  | _ :: rest => recreate_calls rest

/-- A diamond: operator 3 has the inputs 1 and 2, which share the input 0;
operator 4 has operator 3 as both of its inputs. -/
def diamond_world : World :=
  { operators :=
      [ { _type := 10, _input_left := none, _input_right := none, _output := none,
          _transaction_context := none },
        { _type := 11, _input_left := some 0, _input_right := none, _output := none,
          _transaction_context := some 0 },
        { _type := 12, _input_left := some 0, _input_right := none, _output := none,
          _transaction_context := none },
        { _type := 13, _input_left := some 1, _input_right := some 2, _output := none,
          _transaction_context := none },
        { _type := 14, _input_left := some 3, _input_right := some 3, _output := none,
          _transaction_context := none } ],
    contexts := [some { aborted := false, operator_counter := 0 }],
    calls := [] }

/-- The invariant of `_recreate_impl`, between the world `w0` in which `recreate()`
was called, the current world and the current map. -/
structure RecreateInv (w0 w : World) (m : RecreatedOps) : Prop where
  len : w0.operators.length ≤ w.operators.length
  orig : ∀ k, k < w0.operators.length → w.operators[k]? = w0.operators[k]?
  calls : ∃ made, w.calls = w0.calls ++ made ∧ (recreate_calls made).Nodup ∧
    (∀ k, k ∈ recreate_calls made ↔ (List.lookup k m).isSome = true) ∧
    ∀ k c op, List.lookup k m = some c → w0.operators[k]? = some op →
      HookCall._on_recreate k (op._input_left.bind (fun j => List.lookup j m))
        (op._input_right.bind (fun j => List.lookup j m)) c ∈ made
  copy : ∀ k c, List.lookup k m = some c →
    ∃ op cop, w0.operators[k]? = some op ∧ w.operators[c]? = some cop ∧
      w0.operators.length ≤ c ∧ cop._type = op._type ∧
      cop._input_left = op._input_left.bind (fun j => List.lookup j m) ∧
      cop._input_right = op._input_right.bind (fun j => List.lookup j m) ∧
      cop._transaction_context = op._transaction_context ∧
      ∀ j, (op._input_left = some j ∨ op._input_right = some j) →
        (List.lookup j m).isSome = true
  inj : ∀ k1 k2 c, List.lookup k1 m = some c → List.lookup k2 m = some c → k1 = k2

/-- What a call of `_recreate_impl` on the operator at `this` establishes. -/
def RecreatePost (w0 : World) (m : RecreatedOps) (this : Nat) (w' : World)
    (m' : RecreatedOps) (c : Nat) : Prop :=
  RecreateInv w0 w' m' ∧
  (∀ k v, List.lookup k m = some v → List.lookup k m' = some v) ∧
  List.lookup this m' = some c ∧
  ∀ k, (List.lookup k m').isSome = true →
    (List.lookup k m).isSome = true ∨ Reachable w0 this k

/-! ## Operators: `set_parameters()` and `clear_output()` -/

/-- The statement `if (input) input->set_parameters(parameters)`, for a given
`set_parameters`. -/
def set_parameters_of_input (impl : World → Nat → Parameters → Option World) (w : World)
    (parameters : Parameters) : Option Nat → Option World
  | some input => impl w input parameters
  | none => some w

/-- The method `AbstractOperator::set_parameters(parameters)` of the operator at
`this`: `_on_set_parameters` (which does nothing in the base class) is called,
then the method is called on the left and on the right input. The recursion of
the source is bounded by `fuel`: the result is `none` when the fuel runs out (or
when a pointer does not lead to an operator). -/
def set_parameters : Nat → World → Nat → Parameters → Option World
  | 0, _, _, _ => none
  | fuel + 1, w, this, parameters =>
    match w.operators[this]? with
    | none => none
    | some op =>
      match set_parameters_of_input (set_parameters fuel)
          (record w (._on_set_parameters this parameters)) parameters op._input_left with
      | none => none
      | some w2 =>
        set_parameters_of_input (set_parameters fuel) w2 parameters op._input_right

/-- What a call of `set_parameters` on the operator at `this` in `w` leaves: only
calls are added, each of them `_on_set_parameters` with the given map on an
operator that is reachable from `this`, and every such operator has one. -/
def SetParametersPost (w0 w : World) (this : Nat) (parameters : Parameters) (w' : World) :
    Prop :=
  w'.operators = w.operators ∧ w'.contexts = w.contexts ∧
  ∃ made, w'.calls = w.calls ++ made ∧
    (∀ e ∈ made, ∃ j, e = HookCall._on_set_parameters j parameters ∧ Reachable w0 this j) ∧
    ∀ j, Reachable w0 this j → HookCall._on_set_parameters j parameters ∈ made

/-! ## Scheduler -/

/-- The two priorities with which a task can be scheduled. -/
inductive SchedulePriority where
  | Default
  | High
deriving DecidableEq, Repr

/-- Modelled from the spec: a task (`abstract_task.hpp` is not among the sources),
as far as `schedule()` looks at it: the ID that `set_id` stores, whether it is
ready (its predecessor counter is zero) and whether it has been marked as
scheduled. -/
structure AbstractTask where
  id : Option Nat
  is_ready : Bool
  is_scheduled : Bool
deriving DecidableEq, Repr

/-- The method `AbstractTask::set_id`. -/
def AbstractTask.set_id (task : AbstractTask) (id : Nat) : AbstractTask :=
  { task with id := some id }

/-- Modelled from the spec: a task queue (`task_queue.hpp` is not among the
sources) is bound to one NUMA node and stores the tasks of each of the two
priorities in the order in which they were pushed. -/
structure TaskQueue where
  node_id : Nat
  high_priority : List AbstractTask
  default_priority : List AbstractTask
deriving DecidableEq, Repr

/-- Modelled from the spec: `TaskQueue::push(task, priority)` appends the task to
the tasks of its priority. -/
def TaskQueue.push (queue : TaskQueue) (task : AbstractTask) (priority : SchedulePriority) :
    TaskQueue :=
  match priority with
  | .High => { queue with high_priority := queue.high_priority ++ [task] }
  | .Default => { queue with default_priority := queue.default_priority ++ [task] }

/-- Modelled from the spec: `TaskQueue::empty()`. -/
def TaskQueue.empty (queue : TaskQueue) : Bool :=
  queue.high_priority.isEmpty && queue.default_priority.isEmpty

/-- Modelled from the spec: a processing unit (`processing_unit.hpp` is not among
the sources): the node of the queue it is bound to, its CPU, and the number of
tasks that its worker has finished. -/
structure ProcessingUnit where
  queue_node_id : Nat
  cpu_id : Nat
  num_finished_tasks : Nat
deriving DecidableEq, Repr

/-- A worker thread, as far as `schedule()` looks at it: `queue()->node_id()`. -/
structure Worker where
  queue_node_id : Nat
deriving DecidableEq, Repr

/-- The members of `NodeQueueScheduler`. The type of `_task_counter` is declared
in a header that is not among the sources; it is a natural number here. -/
structure NodeQueueScheduler where
  _task_counter : Nat
  _queues : List TaskQueue
  _processing_units : List ProcessingUnit
  _shut_down : Bool
deriving DecidableEq, Repr

/-- The queues that the loop of `begin()` makes for the nodes from `node_id` on,
with the processing units of their CPUs. -/
def begin_nodes : Nat → List (List Nat) → List TaskQueue × List ProcessingUnit
  | _, [] => ([], [])
  | node_id, cpus :: nodes =>
    let rest := begin_nodes (node_id + 1) nodes
    ({ node_id := node_id, high_priority := [], default_priority := [] } :: rest.1,
     cpus.map (fun cpu_id =>
        { queue_node_id := node_id, cpu_id := cpu_id, num_finished_tasks := 0 }) ++ rest.2)

/-- The method `NodeQueueScheduler::begin()`, for a topology given as the list of the CPUs of
every node. -/
def NodeQueueScheduler.begin (s : NodeQueueScheduler) (nodes : List (List Nat)) :
    NodeQueueScheduler :=
  { s with
    _queues := s._queues ++ (begin_nodes 0 nodes).1,
    _processing_units := s._processing_units ++ (begin_nodes 0 nodes).2 }

/-- The block of `schedule()` that looks up the node of the current worker:
`CURRENT_NODE_ID` (a constant of a header that is not among the sources) becomes
the node of the queue of the calling worker, or node 0 when the calling thread
is not a worker; any other node id is kept. -/
def resolve_preferred_node (CURRENT_NODE_ID : Nat) (this_thread_worker : Option Worker)
    (preferred_node_id : Nat) : Nat :=
  if preferred_node_id = CURRENT_NODE_ID then
    match this_thread_worker with
    | some worker => worker.queue_node_id
    | none => 0
  else preferred_node_id

/-- The method `NodeQueueScheduler::schedule(task, preferred_node_id, priority)`, called from
a thread whose worker is `this_thread_worker`: the new state of the scheduler
and of the task. Indexing `_queues` out of range is an error in every build. -/
def NodeQueueScheduler.schedule (IS_DEBUG : Bool) (CURRENT_NODE_ID : Nat)
    (this_thread_worker : Option Worker) (s : NodeQueueScheduler) (task : AbstractTask)
    (preferred_node_id : Nat) (priority : SchedulePriority) :
    Except String (NodeQueueScheduler × AbstractTask) := do
  DebugAssert IS_DEBUG (.ok (!s._shut_down))
    "Can't schedule more tasks after the NodeQueueScheduler was shut down"
  DebugAssert IS_DEBUG (.ok task.is_scheduled)
    "Don't call NodeQueueScheduler::schedule(), call schedule() on the task"
  let task_counter := s._task_counter
  let s := { s with _task_counter := s._task_counter + 1 }
  let task := task.set_id task_counter
  if !task.is_ready then
    pure (s, task)
  else
    let preferred_node_id :=
      resolve_preferred_node CURRENT_NODE_ID this_thread_worker preferred_node_id
    DebugAssert IS_DEBUG (.ok (!decide (preferred_node_id ≥ s._queues.length)))
      "preferred_node_id is not within range of available nodes"
    match s._queues[preferred_node_id]? with
    | none => .error "preferred_node_id is not within range of available nodes"
    | some queue =>
      pure ({ s with _queues := s._queues.set preferred_node_id (queue.push task priority) },
            task)

/-- The sum that the loop of `finish()` computes. -/
def num_finished_tasks (s : NodeQueueScheduler) : Nat :=
  (s._processing_units.map ProcessingUnit.num_finished_tasks).sum

/-- The loop of `finish()`. The finished counts are written by the worker threads
while `finish()` sleeps, so the loop sees a sequence of states of the scheduler,
one for every evaluation of its condition; the result is the state in which it
breaks, `none` when it is still spinning after the last one. -/
def finish_wait : List NodeQueueScheduler → Option NodeQueueScheduler
  | [] => none
  | s :: later => if num_finished_tasks s = s._task_counter then some s else finish_wait later

/-- The loop `for (queue : _queues) DebugAssert(queue->empty(), ...)`. -/
def assert_queues_empty (IS_DEBUG : Bool) : List TaskQueue → Except String Unit
  | [] => .ok ()
  | queue :: queues => do
    DebugAssert IS_DEBUG (.ok queue.empty)
      "NodeQueueScheduler bug: Queue wasn't empty even though all tasks finished"
    assert_queues_empty IS_DEBUG queues

/-- The state in which `finish()` leaves the scheduler. -/
def shut_down_scheduler : NodeQueueScheduler :=
  { _task_counter := 0, _queues := [], _processing_units := [], _shut_down := true }

/-- The method `NodeQueueScheduler::finish()`: `none` when it does not return, an error when
an assertion fails, else the state that it leaves. -/
def NodeQueueScheduler.finish (IS_DEBUG : Bool) (observed : List NodeQueueScheduler) :
    Option (Except String NodeQueueScheduler) :=
  match finish_wait observed with
  | none => none
  | some s => some (do
      if IS_DEBUG then
        assert_queues_empty IS_DEBUG s._queues
      pure shut_down_scheduler)

/-- Modelled from the spec: an estimate (a row count or a selectivity), as a
fraction of natural numbers. -/
structure Estimate where
  num : Nat
  den : Nat
  den_pos : 0 < den
deriving DecidableEq, Repr

/-- The estimate `n / 1`. -/
def Estimate.ofNat (n : Nat) : Estimate := ⟨n, 1, Nat.one_pos⟩

/-- The product of two estimates. -/
def Estimate.mul (a b : Estimate) : Estimate :=
  ⟨a.num * b.num, a.den * b.den, Nat.mul_pos a.den_pos b.den_pos⟩

/-- The order of two estimates, `a ≤ b`. -/
def Estimate.le (a b : Estimate) : Bool :=
  decide (a.num * b.den ≤ b.num * a.den)

/-- Modelled from the spec: the statistics of a column, `{null_fraction,
distinct_count, min, max}`. -/
structure ColumnStatistics where
  null_fraction : Estimate
  distinct_count : Nat
  min : Int
  max : Int
deriving DecidableEq, Repr

/-- Modelled from the spec: the statistics of a table, `{row_count, per-column
statistics}`. -/
structure TableStatistics where
  row_count : Estimate
  column_statistics : List ColumnStatistics
deriving DecidableEq, Repr

/-- The conditions of the predicates of the tests, for which the spec gives a
selectivity. -/
inductive PredicateCondition where
  | Equals
  | LessThan
  | LessThanEquals
  | GreaterThan
  | GreaterThanEquals
deriving DecidableEq, Repr

/-- The way in which a predicate is to be executed. -/
inductive ScanType where
  | TableScan
  | IndexScan
deriving DecidableEq, Repr

/-- A column of the output of a node of the plan: the node (its identity) and the
position of the column. -/
structure LQPColumnReference where
  original_node : Nat
  original_column_id : Nat
deriving DecidableEq, Repr

/-- The second operand of a predicate: a constant or another column. -/
inductive AllParameterVariant where
  | value (v : Int)
  | column (c : LQPColumnReference)
deriving DecidableEq, Repr

/-- Modelled from the spec: the state of a `Predicate` node, the expression
`column condition value` and the scan type. -/
structure PredicateNode where
  column : LQPColumnReference
  predicate_condition : PredicateCondition
  value : AllParameterVariant
  scan_type : ScanType
deriving DecidableEq, Repr

/-- Modelled from the spec: the variants of the nodes of a plan, with the state
that the two rules look at. -/
inductive LQPNodeKind where
  | StoredTable (table_name : String)
  | Mock (statistics : TableStatistics)
  | Predicate (predicate : PredicateNode)
  | Projection
  | Join
  | Aggregate
  | Sort
  | Limit
  | Union
deriving DecidableEq, Repr

/-- Modelled from the spec: a plan, given by its unfolding from the root. Every
node carries its identity; a node that is the input of several nodes occurs
below each of them, with the same identity. -/
inductive LQPNode where
  | leaf (id : Nat) (kind : LQPNodeKind)
  | unary (id : Nat) (kind : LQPNodeKind) (left_input : LQPNode)
  | binary (id : Nat) (kind : LQPNodeKind) (left_input right_input : LQPNode)
deriving DecidableEq, Repr

/-- The identity of the root of a plan. -/
def LQPNode.id : LQPNode → Nat
  | .leaf id _ => id
  | .unary id _ _ => id
  | .binary id _ _ _ => id

/-- The variant and state of the root of a plan. -/
def LQPNode.kind : LQPNode → LQPNodeKind
  | .leaf _ kind => kind
  | .unary _ kind _ => kind
  | .binary _ kind _ _ => kind

/-- The node at the end of a path from the root (`false` goes to the left input,
`true` to the right input): its identity and its variant. -/
def LQPNode.node_at : LQPNode → List Bool → Option (Nat × LQPNodeKind)
  | node, [] => some (node.id, node.kind)
  | .leaf _ _, _ :: _ => none
  | .unary _ _ left_input, false :: path => left_input.node_at path
  | .unary _ _ _, true :: _ => none
  | .binary _ _ left_input _, false :: path => left_input.node_at path
  | .binary _ _ _ right_input, true :: path => right_input.node_at path

/-- The input edges of a plan: the identity of a node, the side of the input
(`true` for the right one) and the identity of the input. -/
def LQPNode.edges : LQPNode → List (Nat × Bool × Nat)
  | .leaf _ _ => []
  | .unary id _ left_input => (id, false, left_input.id) :: left_input.edges
  | .binary id _ left_input right_input =>
    (id, false, left_input.id) :: (id, true, right_input.id) ::
      (left_input.edges ++ right_input.edges)

/-- Modelled from the spec: the outputs of the node `id` in the plan `root`, every
node that names it as an input, with the side. -/
def outputs (root : LQPNode) (id : Nat) : List (Nat × Bool) :=
  ((root.edges.filter (fun e => e.2.2 == id)).map (fun e => (e.1, e.2.1))).dedup

/-- The number of outputs of the node `id` in the plan `root`. -/
def output_count (root : LQPNode) (id : Nat) : Nat :=
  (outputs root id).length

/-- The identity of the left input of the node `id` in the plan `root`. -/
def left_input_of (root : LQPNode) (id : Nat) : Option Nat :=
  (root.edges.find? (fun e => e.1 == id && !e.2.1)).map (fun e => e.2.2)

/-- Modelled from the spec: the selectivity of `column condition v` under a uniform
distribution: `equals` retains one of the `distinct_count` values, a range
condition the part of `[min, max]` that it retains. The columns of the tests
hold integers, so that part is counted in integer values (`column > min`
retains all values of the range but one, as `ComplexReorderingTest` expects). -/
def ColumnStatistics.selectivity (c : ColumnStatistics) (condition : PredicateCondition)
    (v : Int) : Estimate :=
  match condition with
  | .Equals =>
    if h : 0 < c.distinct_count then ⟨1, c.distinct_count, h⟩ else Estimate.ofNat 0
  | .GreaterThan =>
    if h0 : v < c.min then Estimate.ofNat 1
    else if h : v < c.max then
      ⟨(c.max - v).toNat, (c.max - c.min + 1).toNat, by omega⟩
    else Estimate.ofNat 0
  | .GreaterThanEquals =>
    if h0 : v ≤ c.min then Estimate.ofNat 1
    else if h : v ≤ c.max then
      ⟨(c.max - v + 1).toNat, (c.max - c.min + 1).toNat, by omega⟩
    else Estimate.ofNat 0
  | .LessThan =>
    if h0 : c.max < v then Estimate.ofNat 1
    else if h : c.min < v then
      ⟨(v - c.min).toNat, (c.max - c.min + 1).toNat, by omega⟩
    else Estimate.ofNat 0
  | .LessThanEquals =>
    if h0 : c.max ≤ v then Estimate.ofNat 1
    else if h : c.min ≤ v then
      ⟨(v - c.min + 1).toNat, (c.max - c.min + 1).toNat, by omega⟩
    else Estimate.ofNat 0

/-- Modelled from the spec: the selectivity of a predicate on an input with the
given statistics. A predicate that compares two columns, or a column without
statistics, has the fallback selectivity 1. -/
def selectivity (statistics : TableStatistics) (predicate : PredicateNode) : Estimate :=
  match predicate.value with
  | .column _ => Estimate.ofNat 1
  | .value v =>
    match statistics.column_statistics[predicate.column.original_column_id]? with
    | none => Estimate.ofNat 1
    | some c => c.selectivity predicate.predicate_condition v

/-- Modelled from the spec: the estimated output row count of a predicate on an
input with the given statistics. -/
def estimated_row_count (statistics : TableStatistics) (predicate : PredicateNode) :
    Estimate :=
  statistics.row_count.mul (selectivity statistics predicate)

/-- The kinds of index of the tests. -/
inductive ColumnIndexType where
  | GroupKey
  | CompositeGroupKey
  | AdaptiveRadixTree
deriving DecidableEq, Repr

/-- An index of a stored table: its kind and the columns it covers. -/
structure IndexInfo where
  type : ColumnIndexType
  column_ids : List Nat
deriving DecidableEq, Repr

/-- Modelled from the spec: what the optimizer sees of a stored table, its
statistics and its indexes. -/
structure StoredTable where
  table_statistics : TableStatistics
  indexes : List IndexInfo
deriving DecidableEq, Repr

/-- Modelled from the spec: the table catalog, `get_table(name)` being
`List.lookup`. -/
abbrev StorageManager := List (String × StoredTable)

/-- Modelled from the spec: the statistics of the output of a node. A stored or
mock table supplies its statistics, a predicate scales the row count of its
input by its selectivity; the spec does not describe the other nodes, which pass
on the statistics of their left input here. -/
def derive_statistics (storage : StorageManager) : LQPNode → TableStatistics
  | .leaf _ kind =>
    match kind with
    | .Mock statistics => statistics
    | .StoredTable table_name =>
      match storage.lookup table_name with
      | some table => table.table_statistics
      | none => { row_count := Estimate.ofNat 0, column_statistics := [] }
    | _ => { row_count := Estimate.ofNat 0, column_statistics := [] }
  | .unary _ kind left_input =>
    match kind with
    | .Predicate predicate =>
      { derive_statistics storage left_input with
        row_count := estimated_row_count (derive_statistics storage left_input) predicate }
    | _ => derive_statistics storage left_input
  | .binary _ _ left_input _ => derive_statistics storage left_input

/-- A predicate node of a chain: its identity and its state. -/
structure ChainPredicate where
  id : Nat
  predicate : PredicateNode
deriving DecidableEq, Repr

/-- Modelled from the spec: the order of a chain, read from its top: the estimated
output row count, on the input of the chain, does not increase towards the top
(`a` may stand above `b`). -/
def stands_above (input_statistics : TableStatistics) (a b : ChainPredicate) : Prop :=
  (estimated_row_count input_statistics b.predicate).le
    (estimated_row_count input_statistics a.predicate) = true

instance (input_statistics : TableStatistics) : DecidableRel (stands_above input_statistics) :=
  fun _ _ => inferInstanceAs (Decidable (_ = true))

/-- Modelled from the spec: a chain, read from its top, is put in the order of
ascending estimated output row count from the bottom, the most selective
predicate lowest; among equal estimates the original order is kept (the sort is
an insertion sort, which is stable). -/
def reorder_predicates (input_statistics : TableStatistics) (chain : List ChainPredicate) :
    List ChainPredicate :=
  chain.insertionSort (stands_above input_statistics)

/-- Modelled from the spec: the chain, read from its top, linked above `input`. -/
def relink (chain : List ChainPredicate) (input : LQPNode) : LQPNode :=
  chain.foldr (fun p below => .unary p.id (.Predicate p.predicate) below) input

/-- Modelled from the spec: a node can be part of a chain when it is a predicate
that does not have multiple outputs. -/
def is_chain_predicate (output_count : Nat → Nat) (id : Nat) (kind : LQPNodeKind) : Bool :=
  match kind with
  | .Predicate _ => decide (output_count id < 2)
  | _ => false

/-- Modelled from the spec: the walk of the rule from the top of the plan. `chain`
holds the predicates of the chain that ends directly above the node, from its
top. A predicate without multiple outputs joins the chain; at any other node the
chain ends: it is ordered by the estimates on that node, its input, and linked
above it, and the walk goes on in the inputs of the node, with an empty chain. -/
def apply_to (output_count : Nat → Nat) (statistics : LQPNode → TableStatistics) :
    List ChainPredicate → LQPNode → LQPNode
  | chain, .leaf id kind =>
    relink (reorder_predicates (statistics (.leaf id kind)) chain) (.leaf id kind)
  | chain, .unary id kind left_input =>
    match kind with
    | .Predicate predicate =>
      if output_count id < 2 then
        apply_to output_count statistics (chain ++ [⟨id, predicate⟩]) left_input
      else
        relink (reorder_predicates (statistics (.unary id kind left_input)) chain)
          (.unary id kind (apply_to output_count statistics [] left_input))
    | _ =>
      relink (reorder_predicates (statistics (.unary id kind left_input)) chain)
        (.unary id kind (apply_to output_count statistics [] left_input))
  | chain, .binary id kind left_input right_input =>
    relink (reorder_predicates (statistics (.binary id kind left_input right_input)) chain)
      (.binary id kind (apply_to output_count statistics [] left_input)
        (apply_to output_count statistics [] right_input))

/-- Modelled from the spec: `PredicateReorderingRule` applied to a plan. -/
def PredicateReorderingRule (storage : StorageManager) (root : LQPNode) : LQPNode :=
  apply_to (output_count root) (derive_statistics storage) [] root

/-- Modelled from the spec: the allow-list of index kinds of `IndexScanRule`. -/
def INDEX_SCAN_INDEX_TYPES : List ColumnIndexType := [.GroupKey]

/-- Modelled from the spec: the threshold of `IndexScanRule`, 1 %. -/
def INDEX_SCAN_SELECTIVITY_THRESHOLD : Estimate := ⟨1, 100, by decide⟩

/-- Modelled from the spec: conditions (a) to (d) of `IndexScanRule` for a predicate
and its input. -/
def is_index_scan_applicable (storage : StorageManager) (predicate : PredicateNode)
    (left_input : LQPNode) : Bool :=
  match left_input with
  | .leaf table_id (.StoredTable table_name) =>
    match predicate.value, storage.lookup table_name with
    | .value _, some table =>
      predicate.column.original_node == table_id &&
      table.indexes.any (fun index =>
        index.column_ids == [predicate.column.original_column_id] &&
        INDEX_SCAN_INDEX_TYPES.contains index.type) &&
      (selectivity table.table_statistics predicate).le INDEX_SCAN_SELECTIVITY_THRESHOLD
    | _, _ => false
  | _ => false

/-- Modelled from the spec: `IndexScanRule` applied to a plan. -/
def IndexScanRule (storage : StorageManager) : LQPNode → LQPNode
  | .leaf id kind => .leaf id kind
  | .unary id kind left_input =>
    match kind with
    | .Predicate predicate =>
      if predicate.scan_type = .TableScan ∧
          is_index_scan_applicable storage predicate left_input = true then
        .unary id (.Predicate { predicate with scan_type := .IndexScan })
          (IndexScanRule storage left_input)
      else .unary id kind (IndexScanRule storage left_input)
    | _ => .unary id kind (IndexScanRule storage left_input)
  | .binary id kind left_input right_input =>
    .binary id kind (IndexScanRule storage left_input) (IndexScanRule storage right_input)

/-! ### The plans of the tests -/

/-- The statistics of the mock table of `PredicateReorderingTest`: 100 rows, the
columns a (20 values in 10..100), b (5 values in 50..60) and c (2 values in
110..1100). -/
def mock_statistics : TableStatistics :=
  { row_count := Estimate.ofNat 100,
    column_statistics :=
      [ { null_fraction := Estimate.ofNat 0, distinct_count := 20, min := 10, max := 100 },
        { null_fraction := Estimate.ofNat 0, distinct_count := 5, min := 50, max := 60 },
        { null_fraction := Estimate.ofNat 0, distinct_count := 2, min := 110, max := 1100 } ] }

/-- The mock node of `PredicateReorderingTest`, with identity 0. -/
def mock_node : LQPNode := .leaf 0 (.Mock mock_statistics)

/-- The predicate node `column condition value` on a column of node 0, as
`PredicateNode::make` creates it, linked above `input`. -/
def predicate_node (id column_id : Nat) (condition : PredicateCondition) (value : Int)
    (input : LQPNode) : LQPNode :=
  .unary id (.Predicate { column := ⟨0, column_id⟩, predicate_condition := condition,
                           value := .value value, scan_type := .TableScan }) input

/-- The plan of `SimpleReorderingTest`: `P(a>50) → P(a>10) → table`. -/
def simple_lqp : LQPNode :=
  predicate_node 2 0 .GreaterThan 50 (predicate_node 1 0 .GreaterThan 10 mock_node)

/-- The plan of `ComplexReorderingTest`: two chains of predicates with a projection
between them. -/
def complex_lqp : LQPNode :=
  predicate_node 6 0 .Equals 42
    (predicate_node 5 1 .GreaterThan 50
      (predicate_node 4 1 .GreaterThan 40
        (.unary 3 .Projection
          (predicate_node 2 0 .GreaterThanEquals 90
            (predicate_node 1 2 .LessThan 500 mock_node)))))

/-- The statistics of the mock table of `PredicatesWithMultipleOutputs`: 100 rows,
one column with 100 values in 0..100. -/
def range_statistics : TableStatistics :=
  { row_count := Estimate.ofNat 100,
    column_statistics :=
      [ { null_fraction := Estimate.ofNat 0, distinct_count := 100, min := 0, max := 100 } ] }

/-- The mock node of `PredicatesWithMultipleOutputs`, with identity 0. -/
def table_node : LQPNode := .leaf 0 (.Mock range_statistics)

/-- The node `predicate_b_node` of `PredicatesWithMultipleOutputs`, `a > 10` on the table. -/
def predicate_b_node : LQPNode := predicate_node 1 0 .GreaterThan 10 table_node

/-- The plan of `PredicatesWithMultipleOutputs`: a union of `predicate_a_node`
(`a > 90`, above `predicate_b_node`) and `predicate_b_node`, which has two
outputs. -/
def union_lqp : LQPNode :=
  .binary 3 .Union (predicate_node 2 0 .GreaterThan 90 predicate_b_node) predicate_b_node

/-- A union whose left input is the chain `P(a>90) → P(a>20)` above
`predicate_b_node`, and whose right input is `predicate_b_node`. -/
def chain_above_shared_lqp : LQPNode :=
  .binary 4 .Union
    (predicate_node 3 0 .GreaterThan 90 (predicate_node 2 0 .GreaterThan 20 predicate_b_node))
    predicate_b_node

/-- A predicate `a > 50`, with identity 3, above the chain `P(a>90) → P(a>20)` on
the table. -/
def shared_above_chain : LQPNode :=
  predicate_node 3 0 .GreaterThan 50
    (predicate_node 2 0 .GreaterThan 90 (predicate_node 1 0 .GreaterThan 20 table_node))

/-- A union both of whose inputs are `shared_above_chain`. -/
def chain_below_shared_lqp : LQPNode :=
  .binary 4 .Union shared_above_chain shared_above_chain

/-- The statistics that `generate_mock_statistics(row_count)` of `IndexScanRuleTest`
makes: the columns a and b hold 10 values in 0..20, the column c holds 10 values
in 0..20000. -/
def generate_mock_statistics (row_count : Nat) : TableStatistics :=
  { row_count := Estimate.ofNat row_count,
    column_statistics :=
      [ { null_fraction := Estimate.ofNat 0, distinct_count := 10, min := 0, max := 20 },
        { null_fraction := Estimate.ofNat 0, distinct_count := 10, min := 0, max := 20 },
        { null_fraction := Estimate.ofNat 0, distinct_count := 10, min := 0, max := 20000 } ] }

/-- The catalog of `IndexScanRuleTest`: the table `a` with the statistics for a row
count and with the given indexes. -/
def storage_with (row_count : Nat) (indexes : List IndexInfo) : StorageManager :=
  [("a", { table_statistics := generate_mock_statistics row_count, indexes := indexes })]

/-- The node `stored_table_node` of `IndexScanRuleTest`, with identity 0. -/
def stored_table_node : LQPNode := .leaf 0 (.StoredTable "a")

/-- The predicate `c > b` of `NoIndexScanWithTwoColumnPredicate` on the stored
table. -/
def two_column_predicate : LQPNode :=
  .unary 1 (.Predicate { column := ⟨0, 2⟩, predicate_condition := .GreaterThan,
                          value := .column ⟨0, 1⟩, scan_type := .TableScan }) stored_table_node

/-- The plan of `IndexScanOnlyOnOutputOfStoredTableNode`: `b < 15` above
`c > 19900` above the stored table. -/
def two_predicates_lqp : LQPNode :=
  predicate_node 2 1 .LessThan 15 (predicate_node 1 2 .GreaterThan 19900 stored_table_node)

/-- The scan type of the predicate at the end of a path, if there is one. -/
def scan_type_at (root : LQPNode) (path : List Bool) : Option ScanType :=
  match root.node_at path with
  | some (_, .Predicate predicate) => some predicate.scan_type
  | _ => none

/-- The predicate `column condition value` on a column of node 0, with its
identity, as a member of a chain. -/
def chain_predicate (id column_id : Nat) (condition : PredicateCondition) (value : Int) :
    ChainPredicate :=
  ⟨id, { column := ⟨0, column_id⟩, predicate_condition := condition, value := .value value,
         scan_type := .TableScan }⟩

/-! ## Expressions -/

/-- The data types of expressions. -/
inductive DataType where
  | Null
  | Int
  | Long
  | Float
  | Double
  | String
deriving DecidableEq, Repr

/-- The kinds of expression. -/
inductive ExpressionType where
  | Aggregate
  | Arithmetic
  | Case
  | Column
  | Exists
  | Function
  | In
  | Logical
  | Parameter
  | Predicate
  | Select
  | Value
deriving DecidableEq, Repr

/-- An expression: a `CaseExpression` with its three arguments `when`, `then` and
`else_`, or an expression of another class, given by its type and by what its
virtual methods `data_type()` (`none` when it fails an assertion, as that of
`LQPSelectExpression` can) and `as_column_name()` return. -/
inductive AbstractExpression where
  | case (when then_ else_ : AbstractExpression)
  | other (type : ExpressionType) (data_type : Option DataType) (as_column_name : String)
deriving DecidableEq, Repr

/-- The member `type` of an expression. -/
def AbstractExpression.type : AbstractExpression → ExpressionType
  | .case _ _ _ => .Case
  | .other type _ _ => type

/-- The member `arguments` of an expression; the classes that are not among the
sources are leaves here. -/
def AbstractExpression.arguments : AbstractExpression → List AbstractExpression
  | .case when then_ else_ => [when, then_, else_]
  | .other _ _ _ => []

/-- The method `data_type()`; for a `CaseExpression` it is
`expression_common_type(then()->data_type(), else_()->data_type())`, where
`expression_common_type` (`expression_utils.hpp`) is not among the sources. -/
def AbstractExpression.data_type (expression_common_type : DataType → DataType → DataType) :
    AbstractExpression → Option DataType
  | .other _ data_type _ => data_type
  | .case _ then_ else_ =>
    match then_.data_type expression_common_type, else_.data_type expression_common_type with
    | some then_type, some else_type => some (expression_common_type then_type else_type)
    | _, _ => none

/-- The method `as_column_name()`. -/
def AbstractExpression.as_column_name : AbstractExpression → String
  | .other _ _ as_column_name => as_column_name
  | .case when then_ else_ =>
    "CASE WHEN " ++ when.as_column_name ++ " THEN " ++ then_.as_column_name ++ " ELSE " ++
      else_.as_column_name ++ " END"

/-- The method `CaseExpression::_shallow_equals(expression)` of the case expression
`this`. -/
def CaseExpression._shallow_equals (_this _expression : AbstractExpression) : Bool :=
  true

/-- The macro `Assert(expr, msg)` (`utils/assert.hpp`): checked in every build. -/
def Assert (expr : Bool) (msg : String) : Except String Unit :=
  if expr then .ok () else .error msg

/-- The members of an `LQPSelectExpression`: the plan, the parameter IDs, and the
`arguments` of the base class, which hold the parameter expressions. -/
structure LQPSelectExpression where
  lqp : LQPNode
  parameter_ids : List Nat
  arguments : List AbstractExpression
deriving DecidableEq, Repr

/-- The constructor `LQPSelectExpression(lqp, parameter_ids, parameter_expressions)`;
an assertion that fails throws, so that no expression is constructed. -/
def LQPSelectExpression.make (lqp : LQPNode) (parameter_ids : List Nat)
    (parameter_expressions : List AbstractExpression) : Except String LQPSelectExpression := do
  Assert (parameter_ids.length == parameter_expressions.length)
    "Need exactly as many ParameterIDs as parameter Expressions"
  pure { lqp := lqp, parameter_ids := parameter_ids, arguments := parameter_expressions }

/-- The method `LQPSelectExpression::parameter_count()`. -/
def LQPSelectExpression.parameter_count (this : LQPSelectExpression) : Nat :=
  this.parameter_ids.length

/-- The method `LQPSelectExpression::parameter_expression(parameter_idx)`. Indexing
`arguments` out of range is an error. -/
def LQPSelectExpression.parameter_expression (this : LQPSelectExpression)
    (parameter_idx : Nat) : Except String AbstractExpression := do
  Assert (decide (parameter_idx < this.parameter_count)) "Parameter index out of range"
  match this.arguments[parameter_idx]? with
  | some argument => pure argument
  | none => .error "arguments: index out of range"

/-- A column `a` of type `Int`. -/
def column_a : AbstractExpression := .other .Column (some .Int) "a"

/-- A literal `1.5` of type `Double`. -/
def value_double : AbstractExpression := .other .Value (some .Double) "1.5"

/-- A predicate `a > 5`. -/
def predicate_a : AbstractExpression := .other .Predicate (some .Int) "a > 5"

/-! ## Concrete worlds and schedulers -/

/-- An operator that has been executed: its output has one column and one chunk of
three rows. -/
def executed_input : AbstractOperator :=
  { _type := 1, _input_left := none, _input_right := none,
    _output := some { column_count := 1, chunks := [3] }, _transaction_context := some 0 }

/-- An operator over `executed_input` that has not been executed yet. -/
def pending_operator : AbstractOperator :=
  { _type := 2, _input_left := some 0, _input_right := none, _output := none,
    _transaction_context := some 0 }

/-- The two operators under an active transaction context. -/
def active_world : World :=
  { operators := [executed_input, pending_operator],
    contexts := [some { aborted := false, operator_counter := 0 }],
    calls := [] }

/-- Hooks whose `_on_execute` returns a table of two columns and one chunk. -/
def constant_hooks : Hooks :=
  { _on_execute := fun _ _ _ => some { column_count := 2, chunks := [1] } }

/-- A scheduler after `begin()` on a topology of two nodes with two CPUs each. -/
def two_node_scheduler : NodeQueueScheduler :=
  NodeQueueScheduler.begin
    { _task_counter := 0, _queues := [], _processing_units := [], _shut_down := false }
    [[0, 1], [2, 3]]

/-- A task that has been marked as scheduled and is ready. -/
def ready_task : AbstractTask :=
  { id := none, is_ready := true, is_scheduled := true }

/-- A task that has been marked as scheduled and waits for a predecessor. -/
def waiting_task : AbstractTask :=
  { id := none, is_ready := false, is_scheduled := true }

/-- The plan of `MoreComplexReorderingTest`: `P(a>99) → P(b>55) → P(c>100) → table`. -/
def more_complex_lqp : LQPNode :=
  predicate_node 3 0 .GreaterThan 99
    (predicate_node 2 1 .GreaterThan 55 (predicate_node 1 2 .GreaterThan 100 mock_node))

/-- A sub-select with the parameters 0 and 1, bound to `column_a` and
`value_double`. -/
def two_parameter_select : LQPSelectExpression :=
  { lqp := mock_node, parameter_ids := [0, 1], arguments := [column_a, value_double] }

/-- A promotion of data types for concrete inputs: equal types are kept, two
different types give `Double`. -/
def promote_to_double (a b : DataType) : DataType :=
  if a = b then a else .Double

/-- A table of two columns and three chunks, the second of which is empty. -/
def table_with_empty_chunk : Table := { column_count := 2, chunks := [3, 0, 2] }

/-- A world with one operator, whose output is `table_with_empty_chunk`. -/
def empty_chunk_world : World :=
  { operators := [{ _type := 1, _input_left := none, _input_right := none,
                    _output := some table_with_empty_chunk, _transaction_context := none }],
    contexts := [],
    calls := [] }

/-! # Theorems -/

/-! ## Operators: `execute()` -/

theorem DebugAssert_release (e : Except String Bool) (msg : String) :
    DebugAssert false e msg = .ok () := rfl

theorem DebugAssert_true (d : Bool) (msg : String) :
    DebugAssert d (.ok true) msg = .ok () := by
  cases d <;> rfl

theorem get_output_of_columns (d : Bool) (w : World) (i : Nat) (op : AbstractOperator)
    (t : Table) (hop : w.operators[i]? = some op) (ht : op._output = some t)
    (hc : 0 < t.column_count) : get_output d w i = .ok (some t) := by
  have h1 : empty_chunk_check (some t) = true := by
    simp [empty_chunk_check]
  cases d
  · simp [get_output, hop, ht, DebugAssert, bind, Except.bind, pure, Except.pure]
  · simp [get_output, hop, ht, DebugAssert, bind, Except.bind, pure, Except.pure, h1, hc]

theorem get_output_of_none (d : Bool) (w : World) (i : Nat) (op : AbstractOperator)
    (hop : w.operators[i]? = some op) (ht : op._output = none) :
    get_output d w i = .ok none := by
  cases d <;>
    simp [get_output, hop, ht, DebugAssert, bind, Except.bind, pure, Except.pure,
      empty_chunk_check]

theorem execute_asserts_ok (d : Bool) (w : World) (op : AbstractOperator)
    (h : d = true → execute_preconditions w op) : execute_asserts d w op = .ok () := by
  cases d
  · simp [execute_asserts, DebugAssert_release, bind, Except.bind]
  · obtain ⟨hl, hr, ho⟩ := h rfl
    have e1 : (match op._input_left with
        | none => (Except.ok true : Except String Bool)
        | some l => (get_output true w l).map Option.isSome) = .ok true := by
      cases hL : op._input_left with
      | none => rfl
      | some l =>
        obtain ⟨i, t, h1, h2, h3⟩ := hl l hL
        simp [get_output_of_columns true w l i t h1 h2 h3, Except.map]
    have e2 : (match op._input_right with
        | none => (Except.ok true : Except String Bool)
        | some l => (get_output true w l).map Option.isSome) = .ok true := by
      cases hR : op._input_right with
      | none => rfl
      | some l =>
        obtain ⟨i, t, h1, h2, h3⟩ := hr l hR
        simp [get_output_of_columns true w l i t h1 h2 h3, Except.map]
    simp only [execute_asserts, e1, e2, ho, Option.isNone_none, DebugAssert_true, bind,
      Except.bind]

theorem transaction_context_ok (d : Bool) (w : World) (op : AbstractOperator)
    (h : d = true → ∀ p, op._transaction_context = some p → expired w p = false) :
    transaction_context d w op = .ok (locked_context w op) := by
  cases d
  · simp [transaction_context, DebugAssert, bind, Except.bind, pure, Except.pure]
  · cases hp : op._transaction_context with
    | none => simp [transaction_context, hp, DebugAssert, bind, Except.bind, pure, Except.pure]
    | some p =>
      simp [transaction_context, hp, h rfl p hp, DebugAssert, bind, Except.bind, pure,
        Except.pure]

theorem locked_context_alive (w : World) (op : AbstractOperator) (p : Nat)
    (ctx : TransactionContext) (hset : op._transaction_context = some p)
    (hctx : w.contexts[p]? = some (some ctx)) :
    locked_context w op = some p ∧ expired w p = false := by
  have he : expired w p = false := by simp [expired, hctx]
  simp [locked_context, hset, lock, he]

theorem update_context_calls (w : World) (c : Nat) (f : TransactionContext → TransactionContext) :
    (update_context w c f).calls = w.calls := by
  unfold update_context
  split <;> rfl

theorem set_output_calls (w : World) (i : Nat) (t : Option Table) :
    (set_output w i t).calls = w.calls := by
  unfold set_output
  split <;> rfl

theorem lookup_cons_nat (k a b : Nat) (m : List (Nat × Nat)) :
    List.lookup k ((a, b) :: m) = if k = a then some b else List.lookup k m := by
  by_cases h : k = a
  · subst h
    simp [List.lookup]
  · have : (k == a) = false := by simpa using h
    simp [List.lookup, this, h]

theorem recreate_calls_append (a b : List HookCall) :
    recreate_calls (a ++ b) = recreate_calls a ++ recreate_calls b := by
  induction a with
  | nil => rfl
  | cons e rest ih =>
    cases e <;> simp [recreate_calls, ih]

theorem getElem?_some_lt {α : Type} (l : List α) (i : Nat) (a : α) (h : l[i]? = some a) :
    i < l.length := by
  rcases Nat.lt_or_ge i l.length with h1 | h1
  · exact h1
  · rw [List.getElem?_eq_none h1] at h
    cases h

theorem recreated_op_spec (w : World) (this : Nat) (op : AbstractOperator)
    (l r : Option Nat) :
    ∃ cop tail,
      (recreated_op w this op l r).1.operators = w.operators ++ [cop] ∧
      (recreated_op w this op l r).1.calls =
        w.calls ++ (HookCall._on_recreate this l r w.operators.length :: tail) ∧
      recreate_calls tail = [] ∧
      (recreated_op w this op l r).2 = w.operators.length ∧
      cop._type = op._type ∧ cop._input_left = l ∧ cop._input_right = r ∧
      cop._transaction_context = op._transaction_context := by
  obtain ⟨ty, il, ir, out, tc⟩ := op
  cases tc with
  | none => exact ⟨_, [], rfl, rfl, rfl, rfl, rfl, rfl, rfl, rfl⟩
  | some p =>
    refine ⟨⟨ty, l, r, none, some p⟩,
      [HookCall._on_set_transaction_context w.operators.length p], ?_, ?_, rfl, rfl, rfl, rfl,
      rfl, rfl⟩
    · simp [recreated_op, _on_recreate, record, set_transaction_context]
    · simp [recreated_op, _on_recreate, record, set_transaction_context]

theorem reachable_rank (w0 : World) (rank : Nat → Nat) (hdag : AcyclicDAG w0 rank)
    (a b : Nat) (h : Reachable w0 a b) : rank b ≤ rank a := by
  induction h with
  | root => exact le_refl _
  | left i l op _ hop hl ih =>
    exact le_trans (le_of_lt (hdag i op hop l (Or.inl hl)).2) ih
  | right i r op _ hop hr ih =>
    exact le_trans (le_of_lt (hdag i op hop r (Or.inr hr)).2) ih

theorem reachable_trans (w0 : World) (a b c : Nat) (h1 : Reachable w0 a b)
    (h2 : Reachable w0 b c) : Reachable w0 a c := by
  induction h2 with
  | root => exact h1
  | left i l op _ hop hl ih => exact Reachable.left i l op ih hop hl
  | right i r op _ hop hr ih => exact Reachable.right i r op ih hop hr

theorem emplace_of_absent (m : RecreatedOps) (k v : Nat) (h : List.lookup k m = none) :
    m.emplace k v = (k, v) :: m := by
  simp [RecreatedOps.emplace, h]

theorem bind_lookup_cons (m : RecreatedOps) (this c : Nat) (input : Option Nat)
    (hnot : List.lookup this m = none)
    (hin : ∀ j, input = some j → (List.lookup j m).isSome = true) :
    input.bind (fun j => List.lookup j ((this, c) :: m)) =
      input.bind (fun j => List.lookup j m) := by
  cases input with
  | none => rfl
  | some j =>
    have hj := hin j rfl
    have hne : j ≠ this := by
      intro h
      rw [h, hnot] at hj
      cases hj
    simp [lookup_cons_nat, hne]

theorem RecreateInv.step (w0 w2 : World) (m2 : RecreatedOps) (this : Nat)
    (op : AbstractOperator) (l r : Option Nat)
    (hinv : RecreateInv w0 w2 m2)
    (hop : w0.operators[this]? = some op)
    (hnot : List.lookup this m2 = none)
    (hl : l = op._input_left.bind (fun j => List.lookup j m2))
    (hr : r = op._input_right.bind (fun j => List.lookup j m2))
    (hin : ∀ j, (op._input_left = some j ∨ op._input_right = some j) →
      (List.lookup j m2).isSome = true) :
    RecreateInv w0 (recreated_op w2 this op l r).1
      (m2.emplace this (recreated_op w2 this op l r).2) := by
  obtain ⟨cop, tail, hops, hcalls, htail, hc, hty, hil, hir, htc⟩ :=
    recreated_op_spec w2 this op l r
  rw [emplace_of_absent _ _ _ hnot, hc]
  obtain ⟨made, hmade, hnodup, hmem, hargs⟩ := hinv.calls
  have hthis : this ∉ recreate_calls made := by
    intro h
    have := (hmem this).1 h
    rw [hnot] at this
    cases this
  refine ⟨?_, ?_, ?_, ?_, ?_⟩
  · rw [hops]
    simp only [List.length_append, List.length_singleton]
    exact Nat.le_succ_of_le hinv.len
  · intro k hk
    rw [hops, List.getElem?_append_left (lt_of_lt_of_le hk hinv.len)]
    exact hinv.orig k hk
  · refine ⟨made ++ (HookCall._on_recreate this l r w2.operators.length :: tail), ?_, ?_, ?_,
      ?_⟩
    · rw [hcalls, hmade, List.append_assoc]
    · rw [recreate_calls_append]
      simp only [recreate_calls, htail]
      rw [List.nodup_append]
      refine ⟨hnodup, List.nodup_singleton _, ?_⟩
      intro a ha hb
      rw [List.mem_singleton] at hb
      exact hthis (hb ▸ ha)
    · intro k
      rw [recreate_calls_append]
      simp only [recreate_calls, htail, List.mem_append, List.mem_singleton, lookup_cons_nat]
      by_cases hk : k = this
      · simp [hk]
      · simp [hk, hmem k]
    · intro k c op' hk hop'
      rw [lookup_cons_nat] at hk
      by_cases hkt : k = this
      · rw [if_pos hkt] at hk
        cases hk
        subst hkt
        rw [hop] at hop'
        cases hop'
        rw [bind_lookup_cons m2 k _ _ hnot (fun j hj => hin j (Or.inl hj)),
          bind_lookup_cons m2 k _ _ hnot (fun j hj => hin j (Or.inr hj)), ← hl, ← hr]
        simp
      · rw [if_neg hkt] at hk
        obtain ⟨op'', _, h1, _, _, _, _, _, _, h8⟩ := hinv.copy k c hk
        rw [hop'] at h1
        cases h1
        rw [bind_lookup_cons m2 this _ _ hnot (fun j hj => h8 j (Or.inl hj)),
          bind_lookup_cons m2 this _ _ hnot (fun j hj => h8 j (Or.inr hj))]
        exact List.mem_append_left _ (hargs k c op' hk hop')
  · intro k c hk
    rw [lookup_cons_nat] at hk
    by_cases hkt : k = this
    · rw [if_pos hkt] at hk
      cases hk
      subst hkt
      refine ⟨op, cop, hop, ?_, hinv.len, hty, ?_, ?_, htc, ?_⟩
      · rw [hops]
        simp
      · rw [hil, hl]
        exact (bind_lookup_cons m2 k _ _ hnot (fun j hj => hin j (Or.inl hj))).symm
      · rw [hir, hr]
        exact (bind_lookup_cons m2 k _ _ hnot (fun j hj => hin j (Or.inr hj))).symm
      · intro j hj
        have h1 := hin j hj
        have hne : j ≠ k := by
          intro h
          rw [h, hnot] at h1
          cases h1
        simpa [lookup_cons_nat, hne] using h1
    · rw [if_neg hkt] at hk
      obtain ⟨op', cop', h1, h2, h3, h4, h5, h6, h7, h8⟩ := hinv.copy k c hk
      refine ⟨op', cop', h1, ?_, h3, h4, ?_, ?_, h7, ?_⟩
      · rw [hops, List.getElem?_append_left (getElem?_some_lt _ _ _ h2)]
        exact h2
      · rw [h5]
        exact (bind_lookup_cons m2 this _ _ hnot (fun j hj => h8 j (Or.inl hj))).symm
      · rw [h6]
        exact (bind_lookup_cons m2 this _ _ hnot (fun j hj => h8 j (Or.inr hj))).symm
      · intro j hj
        have h9 := h8 j hj
        have hne : j ≠ this := by
          intro h
          rw [h, hnot] at h9
          cases h9
        simpa [lookup_cons_nat, hne] using h9
  · intro k1 k2 c h1 h2
    rw [lookup_cons_nat] at h1 h2
    have hold : ∀ k, List.lookup k m2 = some c → c < w2.operators.length := by
      intro k hk
      obtain ⟨_, cop', _, h, _⟩ := hinv.copy k c hk
      exact getElem?_some_lt _ _ _ h
    by_cases e1 : k1 = this <;> by_cases e2 : k2 = this
    · rw [e1, e2]
    · rw [if_pos e1] at h1
      rw [if_neg e2] at h2
      cases h1
      exact absurd (hold k2 h2) (lt_irrefl _)
    · rw [if_neg e1] at h1
      rw [if_pos e2] at h2
      cases h2
      exact absurd (hold k1 h1) (lt_irrefl _)
    · rw [if_neg e1] at h1
      rw [if_neg e2] at h2
      exact hinv.inj k1 k2 c h1 h2

theorem recreate_input_spec (w0 : World) (rank : Nat → Nat) (fuel : Nat)
    (ih : ∀ w m this, RecreateInv w0 w m → this < w0.operators.length → rank this < fuel →
      ∃ w' m' c, _recreate_impl fuel w m this = some (w', m', c) ∧
        RecreatePost w0 m this w' m' c)
    (w : World) (m : RecreatedOps) (input : Option Nat) (hinv : RecreateInv w0 w m)
    (hvalid : ∀ j, input = some j → j < w0.operators.length ∧ rank j < fuel) :
    ∃ w' m' c, recreate_input (_recreate_impl fuel) w m input = some (w', m', c) ∧
      RecreateInv w0 w' m' ∧
      (∀ k v, List.lookup k m = some v → List.lookup k m' = some v) ∧
      c = input.bind (fun j => List.lookup j m') ∧
      (∀ j, input = some j → (List.lookup j m').isSome = true) ∧
      ∀ k, (List.lookup k m').isSome = true →
        (List.lookup k m).isSome = true ∨ ∃ j, input = some j ∧ Reachable w0 j k := by
  cases input with
  | none =>
    exact ⟨w, m, none, rfl, hinv, fun _ _ h => h, rfl, fun j hj => (by cases hj),
      fun k hk => Or.inl hk⟩
  | some j =>
    obtain ⟨h1, h2⟩ := hvalid j rfl
    obtain ⟨w', m', c, hrun, hinv', hext, hfound, hreach⟩ := ih w m j hinv h1 h2
    refine ⟨w', m', some c, ?_, hinv', hext, ?_, ?_, ?_⟩
    · simp [recreate_input, hrun]
    · simp [hfound]
    · intro j' hj'
      cases hj'
      simp [hfound]
    · intro k hk
      rcases hreach k hk with h | h
      · exact Or.inl h
      · exact Or.inr ⟨j, rfl, h⟩

theorem _recreate_impl_spec (w0 : World) (rank : Nat → Nat) (hdag : AcyclicDAG w0 rank) :
    ∀ fuel w m this, RecreateInv w0 w m → this < w0.operators.length → rank this < fuel →
      ∃ w' m' c, _recreate_impl fuel w m this = some (w', m', c) ∧
        RecreatePost w0 m this w' m' c := by
  intro fuel
  induction fuel with
  | zero => intro w m this _ _ h; exact absurd h (Nat.not_lt_zero _)
  | succ fuel ih =>
    intro w m this hinv hthis hrank
    cases hfind : List.lookup this m with
    | some c =>
      refine ⟨w, m, c, ?_, hinv, fun _ _ h => h, hfind, fun k hk => Or.inl hk⟩
      simp [_recreate_impl, hfind]
    | none =>
      obtain ⟨op, hop⟩ : ∃ op, w0.operators[this]? = some op :=
        ⟨w0.operators[this], List.getElem?_eq_getElem hthis⟩
      have hopw : w.operators[this]? = some op := by rw [hinv.orig this hthis, hop]
      have hvl : ∀ j, op._input_left = some j → j < w0.operators.length ∧ rank j < fuel := by
        intro j hj
        obtain ⟨h1, h2⟩ := hdag this op hop j (Or.inl hj)
        exact ⟨h1, by omega⟩
      have hvr : ∀ j, op._input_right = some j → j < w0.operators.length ∧ rank j < fuel := by
        intro j hj
        obtain ⟨h1, h2⟩ := hdag this op hop j (Or.inr hj)
        exact ⟨h1, by omega⟩
      obtain ⟨w1, m1, cl, hrun1, hinv1, hext1, hcl, hin1, hreach1⟩ :=
        recreate_input_spec w0 rank fuel ih w m op._input_left hinv hvl
      obtain ⟨w2, m2, cr, hrun2, hinv2, hext2, hcr, hin2, hreach2⟩ :=
        recreate_input_spec w0 rank fuel ih w1 m1 op._input_right hinv1 hvr
      have hbelow : ∀ j k, (op._input_left = some j ∨ op._input_right = some j) →
          Reachable w0 j k → k ≠ this := by
        intro j k hj hjk hk
        have h1 := reachable_rank w0 rank hdag j k hjk
        have h2 := (hdag this op hop j hj).2
        rw [hk] at h1
        omega
      have hnot : List.lookup this m2 = none := by
        cases h : List.lookup this m2 with
        | none => rfl
        | some v =>
          exfalso
          rcases hreach2 this (by simp [h]) with h1 | ⟨j, hj, hjk⟩
          · rcases hreach1 this h1 with h0 | ⟨j, hj, hjk⟩
            · rw [hfind] at h0
              cases h0
            · exact hbelow j this (Or.inl hj) hjk rfl
          · exact hbelow j this (Or.inr hj) hjk rfl
      have hl : cl = op._input_left.bind (fun j => List.lookup j m2) := by
        rw [hcl]
        cases hL : op._input_left with
        | none => rfl
        | some j =>
          have := hin1 j hL
          obtain ⟨v, hv⟩ := Option.isSome_iff_exists.1 this
          simp [hv, hext2 j v hv]
      have hin : ∀ j, (op._input_left = some j ∨ op._input_right = some j) →
          (List.lookup j m2).isSome = true := by
        intro j hj
        rcases hj with hj | hj
        · obtain ⟨v, hv⟩ := Option.isSome_iff_exists.1 (hin1 j hj)
          simp [hext2 j v hv]
        · exact hin2 j hj
      have hstep := RecreateInv.step w0 w2 m2 this op cl cr hinv2 hop hnot hl hcr hin
      refine ⟨(recreated_op w2 this op cl cr).1,
        m2.emplace this (recreated_op w2 this op cl cr).2, (recreated_op w2 this op cl cr).2,
        ?_, hstep, ?_, ?_, ?_⟩
      · simp [_recreate_impl, hfind, hopw, hrun1, hrun2]
      · intro k v hk
        have h2 := hext2 k v (hext1 k v hk)
        have hne : k ≠ this := by
          intro h
          rw [h, hnot] at h2
          cases h2
        rw [emplace_of_absent _ _ _ hnot, lookup_cons_nat, if_neg hne]
        exact h2
      · rw [emplace_of_absent _ _ _ hnot, lookup_cons_nat, if_pos rfl]
      · intro k hk
        rw [emplace_of_absent _ _ _ hnot, lookup_cons_nat] at hk
        by_cases hkt : k = this
        · exact Or.inr (hkt ▸ Reachable.root)
        · rw [if_neg hkt] at hk
          rcases hreach2 k hk with h1 | ⟨j, hj, hjk⟩
          · rcases hreach1 k h1 with h0 | ⟨j, hj, hjk⟩
            · exact Or.inl h0
            · exact Or.inr (reachable_trans w0 this j k
                (Reachable.left this j op Reachable.root hop hj) hjk)
          · exact Or.inr (reachable_trans w0 this j k
              (Reachable.right this j op Reachable.root hop hj) hjk)

theorem RecreateInv.init (w : World) : RecreateInv w w [] := by
  refine ⟨le_refl _, fun _ _ => rfl, ⟨[], by simp, by simp [recreate_calls], ?_, ?_⟩, ?_, ?_⟩
  · intro k
    simp [recreate_calls]
  · intro k c op h
    simp at h
  · intro k c h
    simp at h
  · intro k1 k2 c h
    simp at h

theorem RecreateInv.reachable_copied (w0 w : World) (m : RecreatedOps) (root : Nat)
    (hinv : RecreateInv w0 w m) (hroot : (List.lookup root m).isSome = true) (i : Nat)
    (h : Reachable w0 root i) : (List.lookup i m).isSome = true := by
  induction h with
  | root => exact hroot
  | left i l op _ hop hl ih =>
    obtain ⟨c, hc⟩ := Option.isSome_iff_exists.1 ih
    obtain ⟨op', _, h1, _, _, _, _, _, _, h8⟩ := hinv.copy i c hc
    rw [hop] at h1
    cases h1
    exact h8 l (Or.inl hl)
  | right i r op _ hop hr ih =>
    obtain ⟨c, hc⟩ := Option.isSome_iff_exists.1 ih
    obtain ⟨op', _, h1, _, _, _, _, _, _, h8⟩ := hinv.copy i c hc
    rw [hop] at h1
    cases h1
    exact h8 r (Or.inr hr)

theorem bind_lookup_eq_map (m : RecreatedOps) (input : Option Nat)
    (h : ∀ j, input = some j → (List.lookup j m).isSome = true) :
    input.bind (fun j => List.lookup j m) = input.map (fun j => (List.lookup j m).getD 0) := by
  cases input with
  | none => rfl
  | some j =>
    obtain ⟨v, hv⟩ := Option.isSome_iff_exists.1 (h j rfl)
    simp [hv]

/-- C3: on an acyclic operator graph `recreate()` returns (with any fuel above the
rank of the root). `_on_recreate` is called exactly once for every operator that
is reachable from the root and for no other one. There is an injective map
`copy` from the reachable operators to newly allocated ones such that
`_on_recreate` of an operator is called with the copies of its left and right
input, in this order, and returns its copy, which has the type of the operator
and these two inputs: a shared input is represented by one copy in every parent.
The operators that were there before are unchanged. -/
theorem recreate_preserves_dag (w : World) (rank : Nat → Nat) (root fuel : Nat)
    (hdag : AcyclicDAG w rank) (hroot : root < w.operators.length)
    (hfuel : rank root < fuel) :
    ∃ (w' : World) (recreated : Nat) (made : List HookCall) (copy : Nat → Nat),
      recreate fuel w root = some (w', recreated) ∧
      copy root = recreated ∧
      w'.calls = w.calls ++ made ∧
      (recreate_calls made).Nodup ∧
      (∀ i, i ∈ recreate_calls made ↔ Reachable w root i) ∧
      (∀ i, i < w.operators.length → w'.operators[i]? = w.operators[i]?) ∧
      (∀ i, Reachable w root i →
        ∃ op cop, w.operators[i]? = some op ∧ w'.operators[copy i]? = some cop ∧
          w.operators.length ≤ copy i ∧ cop._type = op._type ∧
          cop._input_left = op._input_left.map copy ∧
          cop._input_right = op._input_right.map copy ∧
          cop._transaction_context = op._transaction_context ∧
          HookCall._on_recreate i (op._input_left.map copy) (op._input_right.map copy)
            (copy i) ∈ made) ∧
      (∀ i j, Reachable w root i → Reachable w root j → copy i = copy j → i = j) := by
  obtain ⟨w', m', c, hrun, hinv, _, hfound, hreach⟩ :=
    _recreate_impl_spec w rank hdag fuel w [] root (RecreateInv.init w) hroot hfuel
  have hall : ∀ i, Reachable w root i → (List.lookup i m').isSome = true :=
    RecreateInv.reachable_copied w w' m' root hinv (by simp [hfound])
  obtain ⟨made, hmade, hnodup, hmem, hargs⟩ := hinv.calls
  refine ⟨w', c, made, fun i => (List.lookup i m').getD 0, ?_, ?_, hmade, hnodup, ?_,
    hinv.orig, ?_, ?_⟩
  · simp [recreate, hrun]
  · simp [hfound]
  · intro i
    rw [hmem i]
    constructor
    · intro h
      rcases hreach i h with h0 | h0
      · simp at h0
      · exact h0
    · exact hall i
  · intro i hi
    obtain ⟨v, hv⟩ := Option.isSome_iff_exists.1 (hall i hi)
    obtain ⟨op, cop, h1, h2, h3, h4, h5, h6, h7, h8⟩ := hinv.copy i v hv
    have hleft := bind_lookup_eq_map m' _ (fun j hj => h8 j (Or.inl hj))
    have hright := bind_lookup_eq_map m' _ (fun j hj => h8 j (Or.inr hj))
    refine ⟨op, cop, h1, by simpa [hv] using h2, by simpa [hv] using h3, h4, ?_, ?_, h7, ?_⟩
    · rw [h5]
      exact hleft
    · rw [h6]
      exact hright
    · have h9 := hargs i v op hv h1
      rw [hleft, hright] at h9
      simpa [hv] using h9
  · intro i j hi hj hij
    obtain ⟨vi, hvi⟩ := Option.isSome_iff_exists.1 (hall i hi)
    obtain ⟨vj, hvj⟩ := Option.isSome_iff_exists.1 (hall j hj)
    simp only [hvi, hvj, Option.getD_some] at hij
    exact hinv.inj i j vi hvi (hij ▸ hvj)

/-! ## Operators: `set_parameters()` -/

theorem reachable_head (w : World) (this k : Nat) (h : Reachable w this k) :
    k = this ∨ ∃ op j, w.operators[this]? = some op ∧
      (op._input_left = some j ∨ op._input_right = some j) ∧ Reachable w j k := by
  induction h with
  | root => exact Or.inl rfl
  | left i l op _ hop hl ih =>
    rcases ih with h | ⟨op', j, h1, h2, h3⟩
    · subst h
      exact Or.inr ⟨op, l, hop, Or.inl hl, Reachable.root⟩
    · exact Or.inr ⟨op', j, h1, h2, Reachable.left i l op h3 hop hl⟩
  | right i r op _ hop hr ih =>
    rcases ih with h | ⟨op', j, h1, h2, h3⟩
    · subst h
      exact Or.inr ⟨op, r, hop, Or.inr hr, Reachable.root⟩
    · exact Or.inr ⟨op', j, h1, h2, Reachable.right i r op h3 hop hr⟩

theorem set_parameters_spec (w0 : World) (rank : Nat → Nat) (hdag : AcyclicDAG w0 rank)
    (parameters : Parameters) :
    ∀ fuel w this, w.operators = w0.operators → this < w0.operators.length →
      rank this < fuel →
      ∃ w', set_parameters fuel w this parameters = some w' ∧
        SetParametersPost w0 w this parameters w' := by
  intro fuel
  induction fuel with
  | zero => intro w this _ _ h; exact absurd h (Nat.not_lt_zero _)
  | succ fuel ih =>
    intro w this hw hthis hrank
    obtain ⟨op, hop⟩ : ∃ op, w0.operators[this]? = some op :=
      ⟨w0.operators[this], List.getElem?_eq_getElem hthis⟩
    have hopw : w.operators[this]? = some op := by rw [hw, hop]
    -- the call on an input, when there is one
    have hinput : ∀ (w1 : World) (input : Option Nat), w1.operators = w0.operators →
        (input = op._input_left ∨ input = op._input_right) →
        ∃ w2, set_parameters_of_input (set_parameters fuel) w1 parameters input = some w2 ∧
          w2.operators = w1.operators ∧ w2.contexts = w1.contexts ∧
          ∃ made, w2.calls = w1.calls ++ made ∧
            (∀ e ∈ made, ∃ i j, input = some i ∧
              e = HookCall._on_set_parameters j parameters ∧ Reachable w0 i j) ∧
            ∀ i j, input = some i → Reachable w0 i j →
              HookCall._on_set_parameters j parameters ∈ made := by
      intro w1 input hw1 hin
      cases input with
      | none =>
        refine ⟨w1, rfl, rfl, rfl, [], by simp, ?_, ?_⟩
        · intro e he
          cases he
        · intro i j hi
          cases hi
      | some l =>
        have hl : op._input_left = some l ∨ op._input_right = some l := by
          rcases hin with h | h
          · exact Or.inl h.symm
          · exact Or.inr h.symm
        obtain ⟨h1, h2⟩ := hdag this op hop l hl
        obtain ⟨w2, hrun, ho, hc, made, hmade, hall, hreach⟩ :=
          ih w1 l hw1 h1 (by omega)
        refine ⟨w2, hrun, ho, hc, made, hmade, ?_, ?_⟩
        · intro e he
          obtain ⟨j, hj, hr⟩ := hall e he
          exact ⟨l, j, rfl, hj, hr⟩
        · intro i j hi hr
          cases hi
          exact hreach j hr
    obtain ⟨w2, hrun2, ho2, hc2, made2, hmade2, hall2, hreach2⟩ :=
      hinput (record w (._on_set_parameters this parameters)) op._input_left hw (Or.inl rfl)
    obtain ⟨w3, hrun3, ho3, hc3, made3, hmade3, hall3, hreach3⟩ :=
      hinput w2 op._input_right (by rw [ho2]; exact hw) (Or.inr rfl)
    refine ⟨w3, ?_, ?_, ?_, HookCall._on_set_parameters this parameters :: (made2 ++ made3),
      ?_, ?_, ?_⟩
    · simp only [set_parameters, hopw, hrun2, hrun3]
    · rw [ho3, ho2]
      rfl
    · rw [hc3, hc2]
      rfl
    · rw [hmade3, hmade2]
      simp [record]
    · intro e he
      rcases List.mem_cons.1 he with h | h
      · exact ⟨this, h, Reachable.root⟩
      · rcases List.mem_append.1 h with h | h
        · obtain ⟨i, j, hi, hj, hr⟩ := hall2 e h
          exact ⟨j, hj, reachable_trans w0 this i j
            (Reachable.left this i op Reachable.root hop hi) hr⟩
        · obtain ⟨i, j, hi, hj, hr⟩ := hall3 e h
          exact ⟨j, hj, reachable_trans w0 this i j
            (Reachable.right this i op Reachable.root hop hi) hr⟩
    · intro j hj
      rcases reachable_head w0 this j hj with h | ⟨op', i, h1, h2, h3⟩
      · subst h
        exact List.mem_cons_self _ _
      · rw [hop] at h1
        cases h1
        rcases h2 with h2 | h2
        · exact List.mem_cons_of_mem _ (List.mem_append_left _ (hreach2 i j h2 h3))
        · exact List.mem_cons_of_mem _ (List.mem_append_right _ (hreach3 i j h2 h3))

/-- C11: on an acyclic operator graph `set_parameters(parameters)` on the root
returns (with any fuel above the rank of the root). It changes no operator and
no transaction context; the calls that it makes are calls of
`_on_set_parameters` with that same map on operators reachable from the root
through left and right inputs, and every such operator has at least one. -/
theorem set_parameters_reaches_every_operator (w : World) (rank : Nat → Nat)
    (root fuel : Nat) (parameters : Parameters)
    (hdag : AcyclicDAG w rank) (hroot : root < w.operators.length)
    (hfuel : rank root < fuel) :
    ∃ w' made, set_parameters fuel w root parameters = some w' ∧
      w'.operators = w.operators ∧ w'.contexts = w.contexts ∧
      w'.calls = w.calls ++ made ∧
      (∀ e ∈ made, ∃ i, e = HookCall._on_set_parameters i parameters ∧ Reachable w root i) ∧
      (∀ i, Reachable w root i → HookCall._on_set_parameters i parameters ∈ made) := by
  obtain ⟨w', hrun, ho, hc, made, hmade, hall, hreach⟩ :=
    set_parameters_spec w rank hdag parameters fuel w root rfl hroot hfuel
  exact ⟨w', made, hrun, ho, hc, hmade, hall, hreach⟩

/-! ## Scheduler -/

theorem schedule_asserts_ok (d : Bool) (s : NodeQueueScheduler) (task : AbstractTask)
    (hpre : d = true → s._shut_down = false ∧ task.is_scheduled = true) :
    DebugAssert d (.ok (!s._shut_down))
        "Can't schedule more tasks after the NodeQueueScheduler was shut down" = .ok () ∧
      DebugAssert d (.ok task.is_scheduled)
        "Don't call NodeQueueScheduler::schedule(), call schedule() on the task" = .ok () := by
  cases d
  · exact ⟨rfl, rfl⟩
  · obtain ⟨h1, h2⟩ := hpre rfl
    simp [DebugAssert, h1, h2]

theorem schedule_ok_inv (d : Bool) (cur : Nat) (worker : Option Worker)
    (s : NodeQueueScheduler) (task : AbstractTask) (node : Nat) (priority : SchedulePriority)
    (s' : NodeQueueScheduler) (task' : AbstractTask)
    (h : NodeQueueScheduler.schedule d cur worker s task node priority = .ok (s', task')) :
    task' = task.set_id s._task_counter ∧ s'._task_counter = s._task_counter + 1 ∧
      s'._processing_units = s._processing_units ∧ s'._shut_down = s._shut_down ∧
      ((task.is_ready = false ∧ s'._queues = s._queues) ∨
       (task.is_ready = true ∧ ∃ queue,
          s._queues[resolve_preferred_node cur worker node]? = some queue ∧
          s'._queues = s._queues.set (resolve_preferred_node cur worker node)
            (queue.push (task.set_id s._task_counter) priority))) := by
  obtain ⟨tid, ready, sched⟩ := task
  unfold NodeQueueScheduler.schedule at h
  simp only [bind, Except.bind, pure, Except.pure] at h
  split at h
  · cases h
  · split at h
    · cases h
    · cases ready with
      | false =>
        simp only [AbstractTask.set_id, Bool.not_false, if_true, Except.ok.injEq,
          Prod.mk.injEq] at h
        obtain ⟨h1, h2⟩ := h
        subst h1 h2
        exact ⟨rfl, rfl, rfl, rfl, Or.inl ⟨rfl, rfl⟩⟩
      | true =>
        simp only [AbstractTask.set_id, Bool.not_true, Bool.false_eq_true, if_false] at h
        split at h
        · cases h
        · split at h
          · cases h
          · rename_i queue hq
            simp only [Except.ok.injEq, Prod.mk.injEq] at h
            obtain ⟨h1, h2⟩ := h
            subst h1 h2
            exact ⟨rfl, rfl, rfl, rfl, Or.inr ⟨rfl, queue, hq, rfl⟩⟩

theorem schedule_not_ready_eq (d : Bool) (cur : Nat) (worker : Option Worker)
    (s : NodeQueueScheduler) (task : AbstractTask) (node : Nat) (priority : SchedulePriority)
    (hpre : d = true → s._shut_down = false ∧ task.is_scheduled = true)
    (hready : task.is_ready = false) :
    NodeQueueScheduler.schedule d cur worker s task node priority =
      .ok ({ s with _task_counter := s._task_counter + 1 }, task.set_id s._task_counter) := by
  obtain ⟨a1, a2⟩ := schedule_asserts_ok d s task hpre
  simp [NodeQueueScheduler.schedule, a1, a2, AbstractTask.set_id, hready, bind, Except.bind,
    pure, Except.pure]

theorem schedule_ready_eq (d : Bool) (cur : Nat) (worker : Option Worker)
    (s : NodeQueueScheduler) (task : AbstractTask) (node : Nat) (priority : SchedulePriority)
    (queue : TaskQueue)
    (hpre : d = true → s._shut_down = false ∧ task.is_scheduled = true)
    (hready : task.is_ready = true)
    (hq : s._queues[resolve_preferred_node cur worker node]? = some queue) :
    NodeQueueScheduler.schedule d cur worker s task node priority =
      .ok ({ s with
              _task_counter := s._task_counter + 1,
              _queues := s._queues.set (resolve_preferred_node cur worker node)
                (queue.push (task.set_id s._task_counter) priority) },
           task.set_id s._task_counter) := by
  obtain ⟨a1, a2⟩ := schedule_asserts_ok d s task hpre
  have hlt := getElem?_some_lt _ _ _ hq
  have hdec : decide (resolve_preferred_node cur worker node ≥ s._queues.length) = false := by
    simp [hlt]
  have a3 : DebugAssert d (.ok (!decide (resolve_preferred_node cur worker node ≥
      s._queues.length))) "preferred_node_id is not within range of available nodes"
      = .ok () := by
    rw [hdec]
    exact DebugAssert_true d _
  simp only [NodeQueueScheduler.schedule, a1, a2, AbstractTask.set_id, hready, bind,
    Except.bind, pure, Except.pure, Bool.not_true, Bool.false_eq_true, if_false, a3, hq]

/-- C5: for a task that is not ready, every call of `schedule()` that returns
leaves all the queues as they were, whatever the preferred node and the
priority; and the call returns, with the ID assigned and the counter advanced,
whenever the asserted preconditions hold. -/
theorem schedule_not_ready_keeps_queues (IS_DEBUG : Bool) (CURRENT_NODE_ID : Nat)
    (this_thread_worker : Option Worker) (s : NodeQueueScheduler) (task : AbstractTask)
    (preferred_node_id : Nat) (priority : SchedulePriority)
    (hready : task.is_ready = false) :
    (∀ s' task', NodeQueueScheduler.schedule IS_DEBUG CURRENT_NODE_ID this_thread_worker s task
        preferred_node_id priority = .ok (s', task') → s'._queues = s._queues) ∧
    ((IS_DEBUG = true → s._shut_down = false ∧ task.is_scheduled = true) →
      NodeQueueScheduler.schedule IS_DEBUG CURRENT_NODE_ID this_thread_worker s task
        preferred_node_id priority =
        .ok ({ s with _task_counter := s._task_counter + 1 }, task.set_id s._task_counter)) := by
  constructor
  · intro s' task' h
    obtain ⟨-, -, -, -, h5⟩ := schedule_ok_inv _ _ _ _ _ _ _ _ _ h
    rcases h5 with ⟨-, h6⟩ | ⟨h6, -⟩
    · exact h6
    · rw [hready] at h6
      cases h6
  · intro hpre
    exact schedule_not_ready_eq _ _ _ _ _ _ _ hpre hready

/-- C6: for a ready task (the asserted preconditions holding) `schedule()` pushes
the task, with its ID and the given priority, onto the queue at the resolved
node and leaves every other queue as it was. The resolved node is the given node
id when that is not `CURRENT_NODE_ID`; for `CURRENT_NODE_ID` it is the node of
the queue of the calling worker, and node 0 when the caller is not a worker. -/
theorem schedule_ready_pushes_on_resolved_queue (IS_DEBUG : Bool) (CURRENT_NODE_ID : Nat)
    (this_thread_worker : Option Worker) (s : NodeQueueScheduler) (task : AbstractTask)
    (preferred_node_id : Nat) (priority : SchedulePriority) (queue : TaskQueue)
    (hpre : IS_DEBUG = true → s._shut_down = false ∧ task.is_scheduled = true)
    (hready : task.is_ready = true)
    (hq : s._queues[resolve_preferred_node CURRENT_NODE_ID this_thread_worker
      preferred_node_id]? = some queue) :
    (∃ s' task', NodeQueueScheduler.schedule IS_DEBUG CURRENT_NODE_ID this_thread_worker s task
          preferred_node_id priority = .ok (s', task') ∧
        task' = task.set_id s._task_counter ∧
        s'._queues[resolve_preferred_node CURRENT_NODE_ID this_thread_worker
          preferred_node_id]? = some (queue.push task' priority) ∧
        (∀ k, k ≠ resolve_preferred_node CURRENT_NODE_ID this_thread_worker preferred_node_id →
          s'._queues[k]? = s._queues[k]?) ∧
        s'._queues.length = s._queues.length) ∧
    (queue.push (task.set_id s._task_counter) priority =
      match priority with
      | .High => { queue with
          high_priority := queue.high_priority ++ [task.set_id s._task_counter] }
      | .Default => { queue with
          default_priority := queue.default_priority ++ [task.set_id s._task_counter] }) ∧
    (preferred_node_id ≠ CURRENT_NODE_ID →
      resolve_preferred_node CURRENT_NODE_ID this_thread_worker preferred_node_id =
        preferred_node_id) ∧
    (preferred_node_id = CURRENT_NODE_ID → ∀ worker, this_thread_worker = some worker →
      resolve_preferred_node CURRENT_NODE_ID this_thread_worker preferred_node_id =
        worker.queue_node_id) ∧
    (preferred_node_id = CURRENT_NODE_ID → this_thread_worker = none →
      resolve_preferred_node CURRENT_NODE_ID this_thread_worker preferred_node_id = 0) := by
  have hlt := getElem?_some_lt _ _ _ hq
  refine ⟨⟨_, _, schedule_ready_eq _ _ _ _ _ _ _ queue hpre hready hq, rfl, ?_, ?_, ?_⟩, ?_, ?_,
    ?_, ?_⟩
  · simp [List.getElem?_set, hlt]
  · intro k hk
    simp [List.getElem?_set, Ne.symm hk]
  · simp
  · cases priority <;> rfl
  · intro h
    simp [resolve_preferred_node, h]
  · intro h worker hw
    simp [resolve_preferred_node, h, hw]
  · intro h hw
    simp [resolve_preferred_node, h, hw]

theorem Estimate.le_iff (a b : Estimate) : a.le b = true ↔ a.num * b.den ≤ b.num * a.den := by
  simp [Estimate.le]

theorem Estimate.le_total (a b : Estimate) : a.le b = true ∨ b.le a = true := by
  rw [Estimate.le_iff, Estimate.le_iff]
  exact Nat.le_total _ _

theorem Estimate.le_trans (a b c : Estimate) (hab : a.le b = true) (hbc : b.le c = true) :
    a.le c = true := by
  rw [Estimate.le_iff] at *
  have hb := b.den_pos
  have h1 : a.num * c.den * b.den ≤ c.num * a.den * b.den := by
    calc a.num * c.den * b.den = a.num * b.den * c.den := by ring
      _ ≤ b.num * a.den * c.den := Nat.mul_le_mul_right _ hab
      _ = b.num * c.den * a.den := by ring
      _ ≤ c.num * b.den * a.den := Nat.mul_le_mul_right _ hbc
      _ = c.num * a.den * b.den := by ring
  exact Nat.le_of_mul_le_mul_right h1 hb

instance stands_above_total (s : TableStatistics) : IsTotal ChainPredicate (stands_above s) :=
  ⟨fun _ _ => (Estimate.le_total _ _).symm⟩

instance stands_above_trans (s : TableStatistics) : IsTrans ChainPredicate (stands_above s) :=
  ⟨fun _ _ _ hab hbc => Estimate.le_trans _ _ _ hbc hab⟩

theorem reorder_predicates_nil (s : TableStatistics) : reorder_predicates s [] = [] := rfl

theorem reorder_predicates_perm (s : TableStatistics) (chain : List ChainPredicate) :
    (reorder_predicates s chain).Perm chain :=
  List.perm_insertionSort _ chain

theorem reorder_predicates_sorted (s : TableStatistics) (chain : List ChainPredicate) :
    (reorder_predicates s chain).Sorted (stands_above s) :=
  List.sorted_insertionSort _ chain

theorem apply_to_chain_end (oc : Nat → Nat) (st : LQPNode → TableStatistics)
    (acc : List ChainPredicate) (c : LQPNode)
    (hc : is_chain_predicate oc c.id c.kind = false) :
    apply_to oc st acc c = relink (reorder_predicates (st c) acc) (apply_to oc st [] c) ∧
      (apply_to oc st [] c).id = c.id ∧ (apply_to oc st [] c).kind = c.kind := by
  cases c with
  | leaf id kind => simp [apply_to, reorder_predicates_nil, relink, LQPNode.id, LQPNode.kind]
  | binary id kind l r =>
    simp [apply_to, reorder_predicates_nil, relink, LQPNode.id, LQPNode.kind]
  | unary id kind l =>
    cases kind with
    | Predicate p =>
      have h : ¬ oc id < 2 := by
        simpa [is_chain_predicate, LQPNode.id, LQPNode.kind] using hc
      simp [apply_to, h, reorder_predicates_nil, relink, LQPNode.id, LQPNode.kind]
    | _ => simp [apply_to, reorder_predicates_nil, relink, LQPNode.id, LQPNode.kind]

theorem apply_to_relink (oc : Nat → Nat) (st : LQPNode → TableStatistics)
    (ps : List ChainPredicate) (c : LQPNode)
    (hps : ∀ p ∈ ps, oc p.id < 2)
    (hc : is_chain_predicate oc c.id c.kind = false) :
    ∀ acc, apply_to oc st acc (relink ps c) =
      relink (reorder_predicates (st c) (acc ++ ps)) (apply_to oc st [] c) := by
  induction ps with
  | nil =>
    intro acc
    simpa [relink] using (apply_to_chain_end oc st acc c hc).1
  | cons p ps ih =>
    intro acc
    have hp : oc p.id < 2 := hps p (List.mem_cons_self _ _)
    have h := ih (fun q hq => hps q (List.mem_cons_of_mem _ hq)) (acc ++ [p])
    simp only [relink, List.foldr_cons] at h ⊢
    simp only [apply_to, hp, if_true]
    rw [h, List.append_assoc]
    rfl

/-- C8: a maximal chain `ps` of predicates without multiple outputs, above a node
`c` that is not such a predicate, is replaced by the rule with the same
predicates (a permutation) in the order in which the estimated output row count
on `c` does not increase from bottom to top, so that the most selective
predicate is lowest. The chain stays where it was: at the root, below the same
unary or binary parent (on the same side), and above the same node `c`. Two
chains that a node which is not part of a chain separates are each sorted by
themselves. The rule turns the plans of `SimpleReorderingTest` and
`ComplexReorderingTest` into the plans that the tests expect. -/
theorem predicate_chain_is_sorted (output_count : Nat → Nat)
    (statistics : LQPNode → TableStatistics) (ps qs : List ChainPredicate) (c d : LQPNode)
    (id : Nat) (kind : LQPNodeKind)
    (hps : ∀ p ∈ ps, output_count p.id < 2) (hqs : ∀ q ∈ qs, output_count q.id < 2)
    (hc : is_chain_predicate output_count c.id c.kind = false)
    (hd : is_chain_predicate output_count d.id d.kind = false)
    (hparent : is_chain_predicate output_count id kind = false) :
    apply_to output_count statistics [] (relink ps c) =
        relink (reorder_predicates (statistics c) ps) (apply_to output_count statistics [] c) ∧
    apply_to output_count statistics [] (.unary id kind (relink ps c)) =
        .unary id kind
          (relink (reorder_predicates (statistics c) ps)
            (apply_to output_count statistics [] c)) ∧
    apply_to output_count statistics [] (.binary id kind (relink ps c) (relink qs d)) =
        .binary id kind
          (relink (reorder_predicates (statistics c) ps)
            (apply_to output_count statistics [] c))
          (relink (reorder_predicates (statistics d) qs)
            (apply_to output_count statistics [] d)) ∧
    ((apply_to output_count statistics [] c).id = c.id ∧
      (apply_to output_count statistics [] c).kind = c.kind) ∧
    (reorder_predicates (statistics c) ps).Perm ps ∧
    (reorder_predicates (statistics c) ps).Pairwise
      (fun above below =>
        (estimated_row_count (statistics c) below.predicate).le
          (estimated_row_count (statistics c) above.predicate) = true) ∧
    apply_to output_count statistics [] (relink ps (.unary id kind (relink qs d))) =
        relink (reorder_predicates (statistics (.unary id kind (relink qs d))) ps)
          (.unary id kind
            (relink (reorder_predicates (statistics d) qs)
              (apply_to output_count statistics [] d))) ∧
    PredicateReorderingRule [] simple_lqp =
        predicate_node 1 0 .GreaterThan 10 (predicate_node 2 0 .GreaterThan 50 mock_node) ∧
    PredicateReorderingRule [] complex_lqp =
        predicate_node 4 1 .GreaterThan 40
          (predicate_node 5 1 .GreaterThan 50
            (predicate_node 6 0 .Equals 42
              (.unary 3 .Projection
                (predicate_node 1 2 .LessThan 500
                  (predicate_node 2 0 .GreaterThanEquals 90 mock_node))))) := by
  have hp := apply_to_relink output_count statistics ps c hps hc []
  have hq := apply_to_relink output_count statistics qs d hqs hd []
  simp only [List.nil_append] at hp hq
  have hunary : ∀ x, apply_to output_count statistics [] (.unary id kind x) =
      .unary id kind (apply_to output_count statistics [] x) := by
    intro x
    cases kind with
    | Predicate p =>
      have h : ¬ output_count id < 2 := by simpa [is_chain_predicate] using hparent
      simp [apply_to, h, reorder_predicates_nil, relink]
    | _ => simp [apply_to, reorder_predicates_nil, relink]
  refine ⟨hp, ?_, ?_, (apply_to_chain_end _ _ [] c hc).2, reorder_predicates_perm _ _,
    reorder_predicates_sorted _ _, ?_, by decide, by decide⟩
  · rw [hunary, hp]
  · simp only [apply_to, reorder_predicates_nil, relink, List.foldr_nil]
    simp only [relink] at hp hq
    rw [hp, hq]
  · have hsep : is_chain_predicate output_count (LQPNode.unary id kind (relink qs d)).id
        (LQPNode.unary id kind (relink qs d)).kind = false := hparent
    have h := apply_to_relink output_count statistics ps _ hps hsep []
    simp only [List.nil_append] at h
    rw [h, hunary, hq]

theorem node_at_relink (chain : List ChainPredicate) (x : LQPNode) (path : List Bool) :
    (relink chain x).node_at (List.replicate chain.length false ++ path) = x.node_at path := by
  induction chain with
  | nil => rfl
  | cons p chain ih =>
    simpa [relink, List.replicate_succ, LQPNode.node_at] using ih

theorem reorder_predicates_length (s : TableStatistics) (chain : List ChainPredicate) :
    (reorder_predicates s chain).length = chain.length :=
  (reorder_predicates_perm s chain).length_eq

theorem node_at_reordered (s : TableStatistics) (chain : List ChainPredicate) (x : LQPNode)
    (path : List Bool) :
    (relink (reorder_predicates s chain) x).node_at
      (List.replicate chain.length false ++ path) = x.node_at path := by
  rw [← reorder_predicates_length s chain]
  exact node_at_relink _ x path

theorem apply_to_keeps_shared_predicates (oc : Nat → Nat) (st : LQPNode → TableStatistics)
    (id : Nat) (p : PredicateNode) (hmulti : 2 ≤ oc id) :
    ∀ (node : LQPNode) (acc : List ChainPredicate) (path : List Bool),
      node.node_at path = some (id, .Predicate p) →
      (apply_to oc st acc node).node_at (List.replicate acc.length false ++ path) =
        some (id, .Predicate p) := by
  intro node
  induction node with
  | leaf nid kind =>
    intro acc path h
    cases path with
    | nil =>
      simp only [apply_to]
      rw [node_at_reordered]
      exact h
    | cons b path => simp [LQPNode.node_at] at h
  | unary nid kind l ih =>
    intro acc path h
    have hend : (relink (reorder_predicates (st (.unary nid kind l)) acc)
        (.unary nid kind (apply_to oc st [] l))).node_at
        (List.replicate acc.length false ++ path) = some (id, .Predicate p) := by
      rw [node_at_reordered]
      cases path with
      | nil => exact h
      | cons b path =>
        cases b with
        | false =>
          simp only [LQPNode.node_at] at h ⊢
          simpa using ih [] path h
        | true => simp [LQPNode.node_at] at h
    cases kind with
    | Predicate q =>
      by_cases hq : oc nid < 2
      · simp only [apply_to, hq, if_true]
        cases path with
        | nil =>
          simp only [LQPNode.node_at, LQPNode.id, LQPNode.kind, Option.some.injEq,
            Prod.mk.injEq] at h
          obtain ⟨h1, -⟩ := h
          rw [h1] at hq
          omega
        | cons b path =>
          cases b with
          | false =>
            simp only [LQPNode.node_at] at h
            have := ih (acc ++ [⟨nid, q⟩]) path h
            simpa [List.replicate_succ', List.append_assoc] using this
          | true => simp [LQPNode.node_at] at h
      · simpa only [apply_to, hq, if_false] using hend
    | _ => simpa only [apply_to] using hend
  | binary nid kind l r ihl ihr =>
    intro acc path h
    simp only [apply_to]
    rw [node_at_reordered]
    cases path with
    | nil => exact h
    | cons b path =>
      cases b with
      | false =>
        simp only [LQPNode.node_at] at h ⊢
        simpa using ihl [] path h
      | true =>
        simp only [LQPNode.node_at] at h ⊢
        simpa using ihr [] path h

/-- C9 as stated fails: in `chain_above_shared_lqp` the predicate with identity 1
has two outputs, and the rule replaces the output `P(a>20)` by `P(a>90)`; in
`chain_below_shared_lqp` the predicate with identity 3 has two outputs, and
the rule replaces its input `P(a>90)` by `P(a>20)`. -/
theorem shared_predicate_neighbours_change :
    (output_count chain_above_shared_lqp 1 = 2 ∧
      outputs chain_above_shared_lqp 1 = [(4, true), (2, false)] ∧
      outputs (PredicateReorderingRule [] chain_above_shared_lqp) 1 =
        [(4, true), (3, false)]) ∧
    (output_count chain_below_shared_lqp 3 = 2 ∧
      left_input_of chain_below_shared_lqp 3 = some 2 ∧
      left_input_of (PredicateReorderingRule [] chain_below_shared_lqp) 3 = some 1) := by
  decide

/-- C9, amended: a predicate with two or more outputs is never moved: wherever it
stands in the plan, the rule leaves it on the same path from the root, with the
same identity and the same expression. (The chains of predicates without
multiple outputs directly above and below it are still sorted, so its input and
its outputs may be other predicates of these chains than before.) The plan of
`PredicatesWithMultipleOutputs` is unchanged. -/
theorem shared_predicate_is_not_moved (storage : StorageManager) (root : LQPNode)
    (path : List Bool) (id : Nat) (p : PredicateNode)
    (hnode : root.node_at path = some (id, .Predicate p))
    (hmulti : 2 ≤ output_count root id) :
    (PredicateReorderingRule storage root).node_at path = some (id, .Predicate p) ∧
    (output_count union_lqp 1 = 2 ∧ PredicateReorderingRule [] union_lqp = union_lqp) := by
  refine ⟨?_, by decide⟩
  have h := apply_to_keeps_shared_predicates (output_count root) (derive_statistics storage) id p
    hmulti root [] path hnode
  simpa [PredicateReorderingRule] using h

/-! ## Index scans -/

theorem is_index_scan_applicable_only_if (storage : StorageManager) (p : PredicateNode)
    (l : LQPNode) (h : is_index_scan_applicable storage p l = true) :
    ∃ table_id table_name table index v,
      l = .leaf table_id (.StoredTable table_name) ∧
      p.column.original_node = table_id ∧ p.value = .value v ∧
      storage.lookup table_name = some table ∧ index ∈ table.indexes ∧
      index.column_ids = [p.column.original_column_id] ∧ index.type = .GroupKey := by
  unfold is_index_scan_applicable at h
  split at h
  · rename_i table_id table_name
    split at h
    · rename_i v table hv ht
      simp only [Bool.and_eq_true, beq_iff_eq, List.any_eq_true] at h
      obtain ⟨⟨h1, index, hmem, h2, h3⟩, -⟩ := h
      refine ⟨table_id, table_name, table, index, v, rfl, h1, hv, ht, hmem, h2, ?_⟩
      simpa [INDEX_SCAN_INDEX_TYPES] using h3
    · cases h
  · cases h

theorem index_scan_rule_at (storage : StorageManager) (id : Nat) (p : PredicateNode) :
    ∀ (root : LQPNode) (path : List Bool),
      root.node_at path = some (id, .Predicate p) →
      (IndexScanRule storage root).node_at path = some (id, .Predicate p) ∨
      ((IndexScanRule storage root).node_at path =
          some (id, .Predicate { p with scan_type := .IndexScan }) ∧
        ∃ table_id table_name table index v,
          root.node_at (path ++ [false]) = some (table_id, .StoredTable table_name) ∧
          p.column.original_node = table_id ∧ p.value = .value v ∧
          storage.lookup table_name = some table ∧ index ∈ table.indexes ∧
          index.column_ids = [p.column.original_column_id] ∧ index.type = .GroupKey) := by
  intro root
  induction root with
  | leaf nid kind =>
    intro path h
    cases path with
    | nil => exact Or.inl h
    | cons b path => simp [LQPNode.node_at] at h
  | binary nid kind l r ihl ihr =>
    intro path h
    cases path with
    | nil => exact Or.inl h
    | cons b path =>
      cases b with
      | false => simpa [IndexScanRule, LQPNode.node_at] using ihl path h
      | true => simpa [IndexScanRule, LQPNode.node_at] using ihr path h
  | unary nid kind l ih =>
    intro path h
    cases path with
    | cons b path =>
      cases b with
      | true => simp [LQPNode.node_at] at h
      | false =>
        have hrec := ih path h
        have hsame : ∀ kind', (LQPNode.unary nid kind' (IndexScanRule storage l)).node_at
            (false :: path) = (IndexScanRule storage l).node_at path := fun _ => rfl
        have hroot : (LQPNode.unary nid kind l).node_at ((false :: path) ++ [false]) =
            l.node_at (path ++ [false]) := rfl
        rw [hroot]
        cases kind with
        | Predicate q =>
          simp only [IndexScanRule]
          split <;> (rw [hsame]; exact hrec)
        | _ => simp only [IndexScanRule]; rw [hsame]; exact hrec
    | nil =>
      simp only [LQPNode.node_at, LQPNode.id, LQPNode.kind, Option.some.injEq,
        Prod.mk.injEq] at h
      obtain ⟨h1, h2⟩ := h
      subst h1 h2
      simp only [IndexScanRule]
      split
      · rename_i happ
        right
        refine ⟨rfl, ?_⟩
        obtain ⟨table_id, table_name, table, index, v, hl, rest⟩ :=
          is_index_scan_applicable_only_if storage p l happ.2
        refine ⟨table_id, table_name, table, index, v, ?_, rest⟩
        rw [hl]
        rfl
      · left
        rfl

/-- C10: a predicate either is left as it is by `IndexScanRule` (so that a
`TableScan` stays a `TableScan`), or gets the scan type `IndexScan`, and then its
input is directly a `StoredTable` node, it compares a column of that node with a
constant, and the stored table has a group-key index on exactly that column.
With one million rows and a predicate that passes the selectivity threshold,
the scan type stays `TableScan` without an index, with an index on another
column, with a two-column index, with an index that is not a group-key index,
for a predicate between two columns and for a predicate above another
predicate, as it does in the set-ups of the tests; below that last predicate,
the predicate on the stored table becomes an `IndexScan`. -/
theorem index_scan_only_on_indexed_stored_table (storage : StorageManager) (root : LQPNode)
    (path : List Bool) (id : Nat) (p : PredicateNode)
    (hnode : root.node_at path = some (id, .Predicate p)) :
    ((IndexScanRule storage root).node_at path = some (id, .Predicate p) ∨
      ((IndexScanRule storage root).node_at path =
          some (id, .Predicate { p with scan_type := .IndexScan }) ∧
        ∃ table_id table_name table index v,
          root.node_at (path ++ [false]) = some (table_id, .StoredTable table_name) ∧
          p.column.original_node = table_id ∧ p.value = .value v ∧
          storage.lookup table_name = some table ∧ index ∈ table.indexes ∧
          index.column_ids = [p.column.original_column_id] ∧ index.type = .GroupKey)) ∧
    -- the selective predicate `c > 19900` on one million rows
    scan_type_at (IndexScanRule (storage_with 1000000 [⟨.GroupKey, [2]⟩])
      (predicate_node 1 2 .GreaterThan 19900 stored_table_node)) [] = some .IndexScan ∧
    scan_type_at (IndexScanRule (storage_with 1000000 [])
      (predicate_node 1 2 .GreaterThan 19900 stored_table_node)) [] = some .TableScan ∧
    scan_type_at (IndexScanRule (storage_with 1000000 [⟨.GroupKey, [1]⟩])
      (predicate_node 1 2 .GreaterThan 19900 stored_table_node)) [] = some .TableScan ∧
    scan_type_at (IndexScanRule (storage_with 1000000 [⟨.CompositeGroupKey, [2, 1]⟩])
      (predicate_node 1 2 .GreaterThan 19900 stored_table_node)) [] = some .TableScan ∧
    scan_type_at (IndexScanRule (storage_with 1000000 [⟨.GroupKey, [2, 1]⟩])
      (predicate_node 1 2 .GreaterThan 19900 stored_table_node)) [] = some .TableScan ∧
    scan_type_at (IndexScanRule (storage_with 1000000 [⟨.AdaptiveRadixTree, [2]⟩])
      (predicate_node 1 2 .GreaterThan 19900 stored_table_node)) [] = some .TableScan ∧
    scan_type_at (IndexScanRule (storage_with 1000000 [⟨.GroupKey, [2]⟩, ⟨.GroupKey, [1]⟩])
      two_column_predicate) [] = some .TableScan ∧
    -- a predicate above another predicate, and the predicate below it
    scan_type_at (IndexScanRule (storage_with 1000000 [⟨.GroupKey, [2]⟩, ⟨.GroupKey, [1]⟩])
      (predicate_node 2 1 .LessThan 0
        (predicate_node 1 2 .GreaterThan 19900 stored_table_node))) [] = some .TableScan ∧
    scan_type_at (IndexScanRule (storage_with 1000000 [⟨.GroupKey, [2]⟩, ⟨.GroupKey, [1]⟩])
      (predicate_node 2 1 .LessThan 0
        (predicate_node 1 2 .GreaterThan 19900 stored_table_node))) [false] =
      some .IndexScan ∧
    -- the set-ups of the tests
    scan_type_at (IndexScanRule (storage_with 0 [])
      (predicate_node 1 0 .GreaterThan 10 stored_table_node)) [] = some .TableScan ∧
    scan_type_at (IndexScanRule (storage_with 0 [⟨.GroupKey, [2]⟩])
      (predicate_node 1 0 .GreaterThan 10 stored_table_node)) [] = some .TableScan ∧
    scan_type_at (IndexScanRule (storage_with 0 [⟨.CompositeGroupKey, [2, 1]⟩])
      (predicate_node 1 2 .GreaterThan 10 stored_table_node)) [] = some .TableScan ∧
    scan_type_at (IndexScanRule (storage_with 0 []) two_column_predicate) [] =
      some .TableScan ∧
    scan_type_at (IndexScanRule (storage_with 1000000 [⟨.AdaptiveRadixTree, [2]⟩])
      (predicate_node 1 2 .GreaterThan 10 stored_table_node)) [] = some .TableScan ∧
    scan_type_at (IndexScanRule (storage_with 1000000 [⟨.GroupKey, [2]⟩]) two_predicates_lqp)
      [] = some .TableScan ∧
    scan_type_at (IndexScanRule (storage_with 1000000 [⟨.GroupKey, [2]⟩]) two_predicates_lqp)
      [false] = some .IndexScan := by
  refine ⟨index_scan_rule_at storage id p root path hnode, ?_⟩
  decide

/-! ## Expressions -/

theorem Assert_ok_iff (expr : Bool) (msg : String) : Assert expr msg = .ok () ↔ expr = true := by
  cases expr <;> simp [Assert]

theorem make_ok_of_length (lqp : LQPNode) (ids : List Nat) (exprs : List AbstractExpression)
    (h : ids.length = exprs.length) :
    LQPSelectExpression.make lqp ids exprs =
      .ok { lqp := lqp, parameter_ids := ids, arguments := exprs } := by
  simp [LQPSelectExpression.make, Assert, h, bind, Except.bind, pure, Except.pure]

theorem make_error_of_length (lqp : LQPNode) (ids : List Nat) (exprs : List AbstractExpression)
    (h : ids.length ≠ exprs.length) :
    LQPSelectExpression.make lqp ids exprs =
      .error "Need exactly as many ParameterIDs as parameter Expressions" := by
  simp [LQPSelectExpression.make, Assert, h, bind, Except.bind]

/-- C12: the constructor of `LQPSelectExpression` fails exactly when the number of
parameter IDs differs from the number of parameter expressions. An expression
that it constructs holds the parameter expressions as its arguments, its
`parameter_count()` is their number, and `parameter_expression(i)` returns
argument `i` for `i < parameter_count()` and fails for every other `i`. -/
theorem select_expression_arity (lqp : LQPNode) (parameter_ids : List Nat)
    (parameter_expressions : List AbstractExpression) :
    ((∃ msg, LQPSelectExpression.make lqp parameter_ids parameter_expressions = .error msg) ↔
      parameter_ids.length ≠ parameter_expressions.length) ∧
    ∀ this, LQPSelectExpression.make lqp parameter_ids parameter_expressions = .ok this →
      this.arguments = parameter_expressions ∧
      this.parameter_count = this.arguments.length ∧
      ∀ i, (i < this.parameter_count →
              ∃ argument, this.arguments[i]? = some argument ∧
                this.parameter_expression i = .ok argument) ∧
           (¬ i < this.parameter_count →
              this.parameter_expression i = .error "Parameter index out of range") := by
  constructor
  · constructor
    · rintro ⟨msg, h⟩ hlen
      rw [make_ok_of_length lqp _ _ hlen] at h
      cases h
    · intro hlen
      exact ⟨_, make_error_of_length lqp _ _ hlen⟩
  · intro this h
    by_cases hlen : parameter_ids.length = parameter_expressions.length
    · rw [make_ok_of_length lqp _ _ hlen] at h
      cases h
      refine ⟨rfl, hlen, ?_⟩
      intro i
      constructor
      · intro hi
        have hi' : i < parameter_expressions.length := by
          simpa [LQPSelectExpression.parameter_count, hlen] using hi
        refine ⟨parameter_expressions[i], List.getElem?_eq_getElem hi', ?_⟩
        simp [LQPSelectExpression.parameter_expression, Assert, hi,
          List.getElem?_eq_getElem hi', bind, Except.bind, pure, Except.pure]
      · intro hi
        simp [LQPSelectExpression.parameter_expression, Assert, hi, bind, Except.bind]
    · rw [make_error_of_length lqp _ _ hlen] at h
      cases h

/-- C13: the data type of a case expression is `expression_common_type` of the
data types of its `then` and `else_` arguments (and there is none when one of
these two fails); the `when` argument plays no part in it. -/
theorem case_data_type_is_common_type (expression_common_type : DataType → DataType → DataType)
    (when when' then_ else_ : AbstractExpression) :
    (∀ then_type else_type,
        then_.data_type expression_common_type = some then_type →
        else_.data_type expression_common_type = some else_type →
        (AbstractExpression.case when then_ else_).data_type expression_common_type =
          some (expression_common_type then_type else_type)) ∧
    ((then_.data_type expression_common_type = none ∨
        else_.data_type expression_common_type = none) →
      (AbstractExpression.case when then_ else_).data_type expression_common_type = none) ∧
    (AbstractExpression.case when then_ else_).data_type expression_common_type =
      (AbstractExpression.case when' then_ else_).data_type expression_common_type := by
  refine ⟨?_, ?_, rfl⟩
  · intro t e ht he
    simp [AbstractExpression.data_type, ht, he]
  · intro h
    rcases h with h | h
    · simp [AbstractExpression.data_type, h]
    · cases ht : then_.data_type expression_common_type <;>
        simp [AbstractExpression.data_type, h, ht]

/-- C14 as stated fails: `_shallow_equals` of a case expression returns true for a
case expression none of whose three arguments equals the corresponding
argument of this one. -/
theorem case_shallow_equals_ignores_arguments :
    CaseExpression._shallow_equals (.case predicate_a column_a value_double)
        (.case column_a value_double predicate_a) = true ∧
      predicate_a ≠ column_a ∧ column_a ≠ value_double ∧ value_double ≠ predicate_a := by
  decide

/-- C14, amended: `CaseExpression::_shallow_equals` returns true for every
expression; it compares nothing (a case expression has no state besides its
three arguments, which this method does not look at). -/
theorem case_shallow_equals_is_true (this expression : AbstractExpression) :
    CaseExpression._shallow_equals this expression = true := rfl

/-! ## Operators: the assertions of `execute()`, the operator counter, `clear_output()` -/

theorem DebugAssert_debug_ok (e : Except String Bool) (msg : String)
    (h : DebugAssert true e msg = .ok ()) : e = .ok true := by
  unfold DebugAssert at h
  simp only [if_true] at h
  split at h
  · rfl
  · cases h
  · cases h

theorem execute_asserts_debug_ok (w : World) (op : AbstractOperator)
    (h : execute_asserts true w op = .ok ()) :
    (∀ l, op._input_left = some l → ∃ t, get_output true w l = .ok (some t)) ∧
    (∀ r, op._input_right = some r → ∃ t, get_output true w r = .ok (some t)) ∧
    op._output = none := by
  unfold execute_asserts at h
  simp only [bind, Except.bind] at h
  split at h
  · cases h
  · rename_i u1 h1
    split at h
    · cases h
    · rename_i u2 h2
      have e1 := DebugAssert_debug_ok _ _ h1
      have e2 := DebugAssert_debug_ok _ _ h2
      have e3 := DebugAssert_debug_ok _ _ h
      have input_ok : ∀ (input : Option Nat),
          (match input with
            | none => (Except.ok true : Except String Bool)
            | some l => (get_output true w l).map Option.isSome) = .ok true →
          ∀ l, input = some l → ∃ t, get_output true w l = .ok (some t) := by
        intro input hin l hl
        subst hl
        simp only at hin
        cases hg : get_output true w l with
        | error e => simp [hg, Except.map] at hin
        | ok out =>
          cases out with
          | none => simp [hg, Except.map] at hin
          | some t => exact ⟨t, rfl⟩
      refine ⟨input_ok _ e1, input_ok _ e2, ?_⟩
      simpa using e3

theorem execute_ok_asserts (d : Bool) (hooks : Hooks) (w w' : World) (this : Nat)
    (op : AbstractOperator) (hop : w.operators[this]? = some op)
    (h : execute d hooks w this = .ok w') : execute_asserts d w op = .ok () := by
  unfold execute at h
  simp only [hop, bind, Except.bind] at h
  split at h
  · cases h
  · rename_i u hu
    exact hu

theorem execute_error_of_asserts (d : Bool) (hooks : Hooks) (w : World) (this : Nat)
    (op : AbstractOperator) (msg : String) (hop : w.operators[this]? = some op)
    (h : execute_asserts d w op = .error msg) : execute d hooks w this = .error msg := by
  unfold execute
  simp only [hop, bind, Except.bind, h]

theorem stored_output_eq (w : World) (this : Nat) (op : AbstractOperator)
    (hop : w.operators[this]? = some op) : stored_output w this = op._output := by
  simp [stored_output, hop]

/-- C15 as stated fails in a release build: `execute()` on an operator that
already has an output calls `_on_execute` again and replaces the output. -/
theorem execute_twice_in_release_build :
    ∃ w', execute false constant_hooks active_world 0 = .ok w' ∧
      stored_output active_world 0 = some { column_count := 1, chunks := [3] } ∧
      HookCall._on_execute 0 (some 0) (some { column_count := 2, chunks := [1] }) ∈ w'.calls ∧
      stored_output w' 0 = some { column_count := 2, chunks := [1] } :=
  ⟨_, rfl, by decide, by decide, by decide⟩

/-- C15, amended: in a debug build a call of `execute()` that returns has found the
operator without output and every input that is present with an output. On an
operator whose output is set, or which has a left or right input whose
`get_output()` is null, the assertions at the head of `execute()` fail, before
anything else is done, so that in a debug build an output that has been produced
is not produced again while it is set. (A release build does not check.) -/
theorem execute_asserts_guard_on_execute (hooks : Hooks) (w : World) (this : Nat)
    (op : AbstractOperator) (hop : w.operators[this]? = some op) :
    (∀ w', execute true hooks w this = .ok w' →
      op._output = none ∧
      (∀ l, op._input_left = some l → ∃ t, get_output true w l = .ok (some t)) ∧
      (∀ r, op._input_right = some r → ∃ t, get_output true w r = .ok (some t))) ∧
    ((op._output ≠ none ∨
        (∃ l, op._input_left = some l ∧ get_output true w l = .ok none) ∨
        (∃ r, op._input_right = some r ∧ get_output true w r = .ok none)) →
      ∃ msg, execute_asserts true w op = .error msg ∧
        execute true hooks w this = .error msg) ∧
    (∀ w' t, execute true hooks w this = .ok w' → stored_output w' this = some t →
      ∀ hooks', ∃ msg, execute true hooks' w' this = .error msg) := by
  have hguard : ∀ (w0 : World) (op0 : AbstractOperator), w0.operators[this]? = some op0 →
      (op0._output ≠ none ∨
        (∃ l, op0._input_left = some l ∧ get_output true w0 l = .ok none) ∨
        (∃ r, op0._input_right = some r ∧ get_output true w0 r = .ok none)) →
      ∃ msg, execute_asserts true w0 op0 = .error msg := by
    intro w0 op0 _ hviol
    cases hres : execute_asserts true w0 op0 with
    | error msg => exact ⟨msg, rfl⟩
    | ok u =>
      exfalso
      obtain ⟨hl, hr, ho⟩ := execute_asserts_debug_ok w0 op0 hres
      rcases hviol with h | ⟨l, h1, h2⟩ | ⟨r, h1, h2⟩
      · exact h ho
      · obtain ⟨t, ht⟩ := hl l h1
        rw [h2] at ht
        cases ht
      · obtain ⟨t, ht⟩ := hr r h1
        rw [h2] at ht
        cases ht
  refine ⟨?_, ?_, ?_⟩
  · intro w' h
    obtain ⟨hl, hr, ho⟩ :=
      execute_asserts_debug_ok w op (execute_ok_asserts true hooks w w' this op hop h)
    exact ⟨ho, hl, hr⟩
  · intro hviol
    obtain ⟨msg, hmsg⟩ := hguard w op hop hviol
    exact ⟨msg, hmsg, execute_error_of_asserts true hooks w this op msg hop hmsg⟩
  · intro w' t _ hout hooks'
    cases hop' : w'.operators[this]? with
    | none => simp [stored_output, hop'] at hout
    | some op' =>
      have ho' : op'._output ≠ none := by
        rw [stored_output_eq w' this op' hop'] at hout
        simp [hout]
      obtain ⟨msg, hmsg⟩ := hguard w' op' hop' (Or.inl ho')
      exact ⟨msg, execute_error_of_asserts true hooks' w' this op' msg hop' hmsg⟩

theorem update_context_get (w : World) (c : Nat) (ctx : TransactionContext)
    (f : TransactionContext → TransactionContext) (h : w.contexts[c]? = some (some ctx)) :
    (update_context w c f).contexts[c]? = some (some (f ctx)) ∧
      ∀ q, q ≠ c → (update_context w c f).contexts[q]? = w.contexts[q]? := by
  have hlt := getElem?_some_lt _ _ _ h
  constructor
  · simp [update_context, h, List.getElem?_set, hlt]
  · intro q hq
    simp [update_context, h, List.getElem?_set, Ne.symm hq]

theorem set_output_contexts (w : World) (i : Nat) (t : Option Table) :
    (set_output w i t).contexts = w.contexts := by
  unfold set_output
  split <;> rfl

/-- C16: for an operator whose transaction context is set, alive and not aborted
(the asserted preconditions holding), `execute()` calls `on_operator_started`,
`_on_execute`, `on_operator_finished` and `_on_cleanup`, once each and in this
order. `_on_execute` runs in a world in which the operator counter of the
context is one above its value at entry, and when `execute()` returns the
context is as it was at entry, the counter included; no other context is
touched. With an aborted context the world is unchanged: neither method is
called. -/
theorem execute_counts_operator (IS_DEBUG : Bool) (hooks : Hooks) (w : World) (this : Nat)
    (op : AbstractOperator) (p : Nat) (ctx : TransactionContext)
    (hop : w.operators[this]? = some op)
    (hset : op._transaction_context = some p)
    (hctx : w.contexts[p]? = some (some ctx))
    (hpre : IS_DEBUG = true → execute_preconditions w op) :
    (ctx.aborted = false →
      ∃ w1 w', execute IS_DEBUG hooks w this = .ok w' ∧
        w1.contexts[p]? =
          some (some { ctx with operator_counter := ctx.operator_counter + 1 }) ∧
        w'.calls = w.calls ++
          [.on_operator_started p,
           ._on_execute this (some p) (hooks._on_execute this (some p) w1),
           .on_operator_finished p, ._on_cleanup this] ∧
        w'.contexts[p]? = some (some ctx) ∧
        ∀ q, q ≠ p → w'.contexts[q]? = w.contexts[q]?) ∧
    (ctx.aborted = true → execute IS_DEBUG hooks w this = .ok w) := by
  have hasserts := execute_asserts_ok IS_DEBUG w op hpre
  obtain ⟨hl, he⟩ := locked_context_alive w op p ctx hset hctx
  have htc := transaction_context_ok IS_DEBUG w op (fun _ q hq => by
    rw [hset] at hq; cases hq; exact he)
  constructor
  · intro hab
    have ha : aborted w p = false := by simp [aborted, hctx, hab]
    obtain ⟨w1, hw1⟩ : ∃ w1, w1 = record (update_context w p
        TransactionContext.on_operator_started) (.on_operator_started p) := ⟨_, rfl⟩
    obtain ⟨table, htable⟩ : ∃ table, table = hooks._on_execute this (some p) w1 := ⟨_, rfl⟩
    obtain ⟨w2, hw2⟩ : ∃ w2, w2 = set_output (record w1 (._on_execute this (some p) table))
        this table := ⟨_, rfl⟩
    obtain ⟨g1, g1'⟩ := update_context_get w p ctx TransactionContext.on_operator_started hctx
    have hc1 : w1.contexts[p]? = some (some (TransactionContext.on_operator_started ctx)) := by
      rw [hw1]
      exact g1
    have hc2 : w2.contexts[p]? = some (some (TransactionContext.on_operator_started ctx)) := by
      rw [hw2, set_output_contexts]
      exact hc1
    obtain ⟨g2, g2'⟩ := update_context_get w2 p _ TransactionContext.on_operator_finished hc2
    refine ⟨w1, record (record (update_context w2 p TransactionContext.on_operator_finished)
        (.on_operator_finished p)) (._on_cleanup this), ?_, hc1, ?_, ?_, ?_⟩
    · simp [execute, hop, hasserts, htc, hl, ha, bind, Except.bind, pure, Except.pure, hw2,
        htable, hw1]
    · simp [hw2, htable, hw1, record, set_output_calls, update_context_calls]
    · have : (TransactionContext.on_operator_finished
          (TransactionContext.on_operator_started ctx)) = ctx := by
        simp [TransactionContext.on_operator_finished, TransactionContext.on_operator_started]
      simpa [record, this] using g2
    · intro q hq
      have h1 := g2' q hq
      have h2 := g1' q hq
      simp only [record] at h1 ⊢
      rw [h1, hw2, set_output_contexts, hw1]
      exact h2
  · intro hab
    have ha : aborted w p = true := by simp [aborted, hctx, hab]
    simp [execute, hop, hasserts, htc, hl, ha, bind, Except.bind, pure, Except.pure]

/-- C17 as stated fails: `AbstractOperator` has no opt-in, and `clear_output()`
empties the output of an operator that has one. -/
theorem clear_output_clears_without_opt_in :
    stored_output active_world 0 = some { column_count := 1, chunks := [3] } ∧
      ∃ w', clear_output active_world 0 = .ok w' ∧ stored_output w' 0 = none :=
  ⟨by decide, _, rfl, by decide⟩

/-- C17, amended: `clear_output()` returns every operator to the unexecuted state,
unconditionally: afterwards its output is empty, and neither its other members
nor anything else in the world has changed. -/
theorem clear_output_always_clears (w : World) (this : Nat) (op : AbstractOperator)
    (hop : w.operators[this]? = some op) :
    ∃ w', clear_output w this = .ok w' ∧
      w'.operators[this]? = some { op with _output := none } ∧
      stored_output w' this = none ∧
      (∀ i, i ≠ this → w'.operators[i]? = w.operators[i]?) ∧
      w'.contexts = w.contexts ∧ w'.calls = w.calls := by
  have hlt := getElem?_some_lt _ _ _ hop
  refine ⟨{ w with operators := w.operators.set this { op with _output := none } }, ?_, ?_, ?_,
    ?_, rfl, rfl⟩
  · simp [clear_output, hop]
  · simp [List.getElem?_set, hlt]
  · simp [stored_output, List.getElem?_set, hlt]
  · intro i hi
    simp [List.getElem?_set, Ne.symm hi]

/-! ## Scheduler: other node ids, and a scheduler that has been shut down -/

theorem finish_ok_shut_down (d : Bool) (observed : List NodeQueueScheduler)
    (s' : NodeQueueScheduler) (h : NodeQueueScheduler.finish d observed = some (.ok s')) :
    s' = shut_down_scheduler := by
  unfold NodeQueueScheduler.finish at h
  split at h
  · cases h
  · rename_i s hs
    cases d with
    | false =>
      simp only [Bool.false_eq_true, if_false, bind, Except.bind, pure, Except.pure,
        Option.some.injEq, Except.ok.injEq] at h
      exact h.symm
    | true =>
      simp only [if_true, bind, Except.bind, pure, Except.pure, Option.some.injEq] at h
      split at h
      · cases h
      · simp only [Except.ok.injEq] at h
        exact h.symm

/-- C19 as stated fails in a release build: on the scheduler that `finish()` has
shut down, `schedule()` of a task that is not ready returns, having given the
task an ID and incremented the task counter. -/
theorem schedule_after_shut_down_in_release_build :
    shut_down_scheduler._shut_down = true ∧
    NodeQueueScheduler.schedule false 1000 none shut_down_scheduler waiting_task 0 .Default =
      .ok ({ shut_down_scheduler with _task_counter := 1 }, waiting_task.set_id 0) :=
  ⟨rfl, rfl⟩

/-- C19, amended: in a debug build `schedule()` on a scheduler that has been shut
down fails its first assertion, before the task gets an ID, the task counter is
incremented or a queue is looked at; this holds for the scheduler that any
returning call of `finish()` leaves. (A release build does not check.) -/
theorem schedule_after_shut_down_fails (CURRENT_NODE_ID : Nat)
    (this_thread_worker : Option Worker) (s : NodeQueueScheduler) (task : AbstractTask)
    (preferred_node_id : Nat) (priority : SchedulePriority)
    (hshut : s._shut_down = true) :
    NodeQueueScheduler.schedule true CURRENT_NODE_ID this_thread_worker s task
        preferred_node_id priority =
      .error "Can't schedule more tasks after the NodeQueueScheduler was shut down" ∧
    ∀ d observed s', NodeQueueScheduler.finish d observed = some (.ok s') →
      NodeQueueScheduler.schedule true CURRENT_NODE_ID this_thread_worker s' task
          preferred_node_id priority =
        .error "Can't schedule more tasks after the NodeQueueScheduler was shut down" := by
  have hfail : ∀ s0 : NodeQueueScheduler, s0._shut_down = true →
      NodeQueueScheduler.schedule true CURRENT_NODE_ID this_thread_worker s0 task
          preferred_node_id priority =
        .error "Can't schedule more tasks after the NodeQueueScheduler was shut down" := by
    intro s0 h0
    simp [NodeQueueScheduler.schedule, DebugAssert, h0, bind, Except.bind]
  refine ⟨hfail s hshut, ?_⟩
  intro d observed s' h
  rw [finish_ok_shut_down d observed s' h]
  exact hfail _ rfl

/-! ## Predicate reordering: the plan of `MoreComplexReorderingTest` -/

/-- C20 as stated fails: `c > 100` retains every row (all values of c lie in
110..1100) and is the least selective of the three predicates, not the most
selective one, and the rule does not leave the plan with `P(c>100)` at the
bottom and `P(a>99)` at the top, which is the plan it was given. -/
theorem more_complex_order_is_reversed :
    selectivity mock_statistics (chain_predicate 1 2 .GreaterThan 100).predicate =
      Estimate.ofNat 1 ∧
    (selectivity mock_statistics (chain_predicate 1 2 .GreaterThan 100).predicate).le
      (selectivity mock_statistics (chain_predicate 2 1 .GreaterThan 55).predicate) = false ∧
    (selectivity mock_statistics (chain_predicate 2 1 .GreaterThan 55).predicate).le
      (selectivity mock_statistics (chain_predicate 3 0 .GreaterThan 99).predicate) = false ∧
    PredicateReorderingRule [] more_complex_lqp ≠
      predicate_node 3 0 .GreaterThan 99
        (predicate_node 2 1 .GreaterThan 55 (predicate_node 1 2 .GreaterThan 100 mock_node)) := by
  decide

/-- C20, amended: on the table of the test the selectivities of `a > 99`, `b > 55`
and `c > 100` are 1/91, 5/11 and 1: the most selective predicate is `a > 99`,
then `b > 55`, then `c > 100`. The rule turns the plan into the one that
`MoreComplexReorderingTest` expects: read from the table upwards `P(a>99)`,
`P(b>55)`, `P(c>100)`. -/
theorem more_complex_reordering :
    selectivity mock_statistics (chain_predicate 3 0 .GreaterThan 99).predicate =
      ⟨1, 91, by decide⟩ ∧
    selectivity mock_statistics (chain_predicate 2 1 .GreaterThan 55).predicate =
      ⟨5, 11, by decide⟩ ∧
    selectivity mock_statistics (chain_predicate 1 2 .GreaterThan 100).predicate =
      ⟨1, 1, by decide⟩ ∧
    (estimated_row_count mock_statistics (chain_predicate 3 0 .GreaterThan 99).predicate).le
      (estimated_row_count mock_statistics (chain_predicate 2 1 .GreaterThan 55).predicate) =
        true ∧
    (estimated_row_count mock_statistics (chain_predicate 2 1 .GreaterThan 55).predicate).le
      (estimated_row_count mock_statistics (chain_predicate 1 2 .GreaterThan 100).predicate) =
        true ∧
    PredicateReorderingRule [] more_complex_lqp =
      predicate_node 1 2 .GreaterThan 100
        (predicate_node 2 1 .GreaterThan 55 (predicate_node 3 0 .GreaterThan 99 mock_node)) := by
  decide

/-! ## Index scans: the selectivity threshold -/

/-- C21: for a predicate that compares a column with a constant, directly above a
stored table that has a group-key index on exactly that column, `IndexScanRule`
sets the scan type `IndexScan` when the estimated selectivity is at most the
threshold of 1 %, and leaves the plan with `TableScan` when it is above. On the
column c with the range 0..20000 the selectivity of `c > 19900` is 100/20001, and
the predicate becomes an `IndexScan`; that of `c > 10` is 19990/20001, and the
predicate stays a `TableScan` (with one million rows and with the 80000 rows of
`NoIndexScanWithHighSelectivity`). -/
theorem index_scan_follows_selectivity_threshold (storage : StorageManager)
    (table_name : String) (table : StoredTable) (table_id id column_id : Nat)
    (condition : PredicateCondition) (v : Int)
    (hlookup : storage.lookup table_name = some table)
    (hindex : (⟨.GroupKey, [column_id]⟩ : IndexInfo) ∈ table.indexes) :
    ((selectivity table.table_statistics
          { column := ⟨table_id, column_id⟩, predicate_condition := condition,
            value := .value v, scan_type := .TableScan }).le
        INDEX_SCAN_SELECTIVITY_THRESHOLD = true →
      IndexScanRule storage
          (.unary id
            (.Predicate
              { column := ⟨table_id, column_id⟩, predicate_condition := condition,
                value := .value v, scan_type := .TableScan })
            (.leaf table_id (.StoredTable table_name))) =
        .unary id
          (.Predicate
            { column := ⟨table_id, column_id⟩, predicate_condition := condition,
              value := .value v, scan_type := .IndexScan })
          (.leaf table_id (.StoredTable table_name))) ∧
    ((selectivity table.table_statistics
          { column := ⟨table_id, column_id⟩, predicate_condition := condition,
            value := .value v, scan_type := .TableScan }).le
        INDEX_SCAN_SELECTIVITY_THRESHOLD = false →
      IndexScanRule storage
          (.unary id
            (.Predicate
              { column := ⟨table_id, column_id⟩, predicate_condition := condition,
                value := .value v, scan_type := .TableScan })
            (.leaf table_id (.StoredTable table_name))) =
        .unary id
          (.Predicate
            { column := ⟨table_id, column_id⟩, predicate_condition := condition,
              value := .value v, scan_type := .TableScan })
          (.leaf table_id (.StoredTable table_name))) ∧
    selectivity (generate_mock_statistics 1000000)
        (chain_predicate 1 2 .GreaterThan 19900).predicate = ⟨100, 20001, by decide⟩ ∧
    selectivity (generate_mock_statistics 1000000)
        (chain_predicate 1 2 .GreaterThan 10).predicate = ⟨19990, 20001, by decide⟩ ∧
    (selectivity (generate_mock_statistics 1000000)
        (chain_predicate 1 2 .GreaterThan 19900).predicate).le
      INDEX_SCAN_SELECTIVITY_THRESHOLD = true ∧
    (selectivity (generate_mock_statistics 1000000)
        (chain_predicate 1 2 .GreaterThan 10).predicate).le
      INDEX_SCAN_SELECTIVITY_THRESHOLD = false ∧
    scan_type_at (IndexScanRule (storage_with 1000000 [⟨.GroupKey, [2]⟩])
      (predicate_node 1 2 .GreaterThan 19900 stored_table_node)) [] = some .IndexScan ∧
    scan_type_at (IndexScanRule (storage_with 1000000 [⟨.GroupKey, [2]⟩])
      (predicate_node 1 2 .GreaterThan 10 stored_table_node)) [] = some .TableScan ∧
    scan_type_at (IndexScanRule (storage_with 80000 [⟨.GroupKey, [2]⟩])
      (predicate_node 1 2 .GreaterThan 10 stored_table_node)) [] = some .TableScan := by
  have hex : ∃ x ∈ table.indexes, x.column_ids = [column_id] ∧
      x.type ∈ INDEX_SCAN_INDEX_TYPES :=
    ⟨_, hindex, rfl, by simp [INDEX_SCAN_INDEX_TYPES]⟩
  refine ⟨?_, ?_, ?_⟩
  · intro hsel
    simp [IndexScanRule, is_index_scan_applicable, hlookup, hex, hsel]
  · intro hsel
    simp [IndexScanRule, is_index_scan_applicable, hlookup, hsel]
  · decide

/-! ## Expressions: `deep_copy()` of a case expression -/

/-- C23: the condition of the check `Empty chunk returned from operator` is true
for every output, null or not, whatever the sizes of its chunks, so that this
check fails in no build. Whenever the output is null or has at least one column,
`get_output()` returns the stored output, in a debug build as in a release
build; it does so for the table of three chunks of which the second is
empty. -/
theorem empty_chunk_check_never_fails (IS_DEBUG : Bool) (w : World) (this : Nat)
    (op : AbstractOperator) (hop : w.operators[this]? = some op)
    (hcolumns : ∀ t, op._output = some t → 0 < t.column_count) :
    (∀ output : Option Table, empty_chunk_check output = true) ∧
    (∀ (d : Bool) (output : Option Table),
      DebugAssert d (.ok (empty_chunk_check output)) "Empty chunk returned from operator" =
        .ok ()) ∧
    get_output IS_DEBUG w this = .ok op._output ∧
    empty_chunk_check (some table_with_empty_chunk) = true ∧
    get_output true empty_chunk_world 0 = .ok (some table_with_empty_chunk) := by
  have hcheck : ∀ output : Option Table, empty_chunk_check output = true := by
    intro output
    cases output with
    | none => rfl
    | some t =>
      simp only [empty_chunk_check]
      split
      · rfl
      · split <;> rfl
  refine ⟨hcheck, ?_, ?_, hcheck _, rfl⟩
  · intro d output
    rw [hcheck]
    exact DebugAssert_true d _
  · cases hout : op._output with
    | none => exact hout ▸ get_output_of_none IS_DEBUG w this op hop hout
    | some t =>
      exact get_output_of_columns IS_DEBUG w this op t hop hout (hcolumns t hout)

/-! ## The theorems at concrete inputs -/

theorem diamond_world_acyclic : AcyclicDAG diamond_world id := by
  intro i op hop j hj
  have hi : i < 5 := getElem?_some_lt _ _ _ hop
  interval_cases i <;> simp [diamond_world] at hop <;> subst hop <;> simp at hj <;>
    first
    | (subst hj; decide)
    | (rcases hj with hj | hj <;> subst hj <;> decide)

theorem recreate_preserves_dag_witness :
    ∃ (w' : World) (recreated : Nat) (made : List HookCall) (copy : Nat → Nat),
      recreate 5 diamond_world 4 = some (w', recreated) ∧
      copy 4 = recreated ∧
      w'.calls = diamond_world.calls ++ made ∧
      (recreate_calls made).Nodup ∧
      (∀ i, i ∈ recreate_calls made ↔ Reachable diamond_world 4 i) ∧
      (∀ i, i < diamond_world.operators.length →
        w'.operators[i]? = diamond_world.operators[i]?) ∧
      (∀ i, Reachable diamond_world 4 i →
        ∃ op cop, diamond_world.operators[i]? = some op ∧ w'.operators[copy i]? = some cop ∧
          diamond_world.operators.length ≤ copy i ∧ cop._type = op._type ∧
          cop._input_left = op._input_left.map copy ∧
          cop._input_right = op._input_right.map copy ∧
          cop._transaction_context = op._transaction_context ∧
          HookCall._on_recreate i (op._input_left.map copy) (op._input_right.map copy)
            (copy i) ∈ made) ∧
      (∀ i j, Reachable diamond_world 4 i → Reachable diamond_world 4 j →
        copy i = copy j → i = j) :=
  recreate_preserves_dag diamond_world id 4 5 diamond_world_acyclic (by decide) (by decide)

theorem schedule_not_ready_keeps_queues_witness :
    (∀ s' task', NodeQueueScheduler.schedule true 1000 none two_node_scheduler waiting_task
        1 .High = .ok (s', task') → s'._queues = two_node_scheduler._queues) ∧
    ((true = true → two_node_scheduler._shut_down = false ∧
        waiting_task.is_scheduled = true) →
      NodeQueueScheduler.schedule true 1000 none two_node_scheduler waiting_task 1 .High =
        .ok ({ two_node_scheduler with
                _task_counter := two_node_scheduler._task_counter + 1 },
             waiting_task.set_id two_node_scheduler._task_counter)) :=
  schedule_not_ready_keeps_queues true 1000 none two_node_scheduler waiting_task 1 .High rfl

theorem schedule_ready_pushes_on_resolved_queue_witness :
    ∃ s' task', NodeQueueScheduler.schedule true 1000 (some { queue_node_id := 1 })
          two_node_scheduler ready_task 1000 .High = .ok (s', task') ∧
        task' = ready_task.set_id 0 ∧
        s'._queues[1]? = some { node_id := 1, high_priority := [task'],
                                default_priority := [] } ∧
        (∀ k, k ≠ 1 → s'._queues[k]? = two_node_scheduler._queues[k]?) ∧
        s'._queues.length = two_node_scheduler._queues.length :=
  (schedule_ready_pushes_on_resolved_queue true 1000 (some { queue_node_id := 1 })
    two_node_scheduler ready_task 1000 .High
    { node_id := 1, high_priority := [], default_priority := [] }
    (fun _ => ⟨rfl, rfl⟩) rfl rfl).1

theorem predicate_chain_is_sorted_witness :
    apply_to (output_count complex_lqp) (derive_statistics []) []
        (relink [chain_predicate 6 0 .Equals 42, chain_predicate 5 1 .GreaterThan 50,
            chain_predicate 4 1 .GreaterThan 40]
          (.unary 3 .Projection
            (relink [chain_predicate 2 0 .GreaterThanEquals 90,
                chain_predicate 1 2 .LessThan 500] mock_node))) =
      relink (reorder_predicates
          (derive_statistics [] (.unary 3 .Projection
            (relink [chain_predicate 2 0 .GreaterThanEquals 90,
                chain_predicate 1 2 .LessThan 500] mock_node)))
          [chain_predicate 6 0 .Equals 42, chain_predicate 5 1 .GreaterThan 50,
            chain_predicate 4 1 .GreaterThan 40])
        (.unary 3 .Projection
          (relink (reorder_predicates (derive_statistics [] mock_node)
              [chain_predicate 2 0 .GreaterThanEquals 90, chain_predicate 1 2 .LessThan 500])
            (apply_to (output_count complex_lqp) (derive_statistics []) [] mock_node))) :=
  (predicate_chain_is_sorted (output_count complex_lqp) (derive_statistics [])
    [chain_predicate 6 0 .Equals 42, chain_predicate 5 1 .GreaterThan 50,
      chain_predicate 4 1 .GreaterThan 40]
    [chain_predicate 2 0 .GreaterThanEquals 90, chain_predicate 1 2 .LessThan 500]
    mock_node mock_node 3 .Projection (by decide) (by decide) (by decide) (by decide)
    (by decide)).2.2.2.2.2.2.1

theorem shared_predicate_is_not_moved_witness :
    chain_above_shared_lqp.node_at [false, false, false] =
        some (1, .Predicate (chain_predicate 1 0 .GreaterThan 10).predicate) ∧
      2 ≤ output_count chain_above_shared_lqp 1 ∧
      (PredicateReorderingRule [] chain_above_shared_lqp).node_at [false, false, false] =
        some (1, .Predicate (chain_predicate 1 0 .GreaterThan 10).predicate) :=
  ⟨by decide, by decide,
    (shared_predicate_is_not_moved [] chain_above_shared_lqp [false, false, false] 1
      (chain_predicate 1 0 .GreaterThan 10).predicate (by decide) (by decide)).1⟩

theorem index_scan_only_on_indexed_stored_table_witness :
    (IndexScanRule (storage_with 1000000 [⟨.GroupKey, [2]⟩]) two_predicates_lqp).node_at
        [false] = some (1, .Predicate (chain_predicate 1 2 .GreaterThan 19900).predicate) ∨
      ((IndexScanRule (storage_with 1000000 [⟨.GroupKey, [2]⟩]) two_predicates_lqp).node_at
          [false] = some (1, .Predicate
            { (chain_predicate 1 2 .GreaterThan 19900).predicate with
              scan_type := .IndexScan }) ∧
        ∃ table_id table_name table index v,
          two_predicates_lqp.node_at ([false] ++ [false]) =
            some (table_id, .StoredTable table_name) ∧
          (chain_predicate 1 2 .GreaterThan 19900).predicate.column.original_node = table_id ∧
          (chain_predicate 1 2 .GreaterThan 19900).predicate.value = .value v ∧
          (storage_with 1000000 [⟨.GroupKey, [2]⟩]).lookup table_name = some table ∧
          index ∈ table.indexes ∧
          index.column_ids =
            [(chain_predicate 1 2 .GreaterThan 19900).predicate.column.original_column_id] ∧
          index.type = .GroupKey) :=
  (index_scan_only_on_indexed_stored_table (storage_with 1000000 [⟨.GroupKey, [2]⟩])
    two_predicates_lqp [false] 1 (chain_predicate 1 2 .GreaterThan 19900).predicate
    (by decide)).1

theorem set_parameters_reaches_every_operator_witness :
    ∃ w' made, set_parameters 5 diamond_world 4 [(0, .int 7)] = some w' ∧
      w'.operators = diamond_world.operators ∧ w'.contexts = diamond_world.contexts ∧
      w'.calls = diamond_world.calls ++ made ∧
      (∀ e ∈ made, ∃ i, e = HookCall._on_set_parameters i [(0, .int 7)] ∧
        Reachable diamond_world 4 i) ∧
      (∀ i, Reachable diamond_world 4 i →
        HookCall._on_set_parameters i [(0, .int 7)] ∈ made) :=
  set_parameters_reaches_every_operator diamond_world id 4 5 [(0, .int 7)]
    diamond_world_acyclic (by decide) (by decide)

theorem select_expression_arity_witness :
    two_parameter_select.arguments = [column_a, value_double] ∧
      two_parameter_select.parameter_count = two_parameter_select.arguments.length ∧
      ∀ i, (i < two_parameter_select.parameter_count →
              ∃ argument, two_parameter_select.arguments[i]? = some argument ∧
                two_parameter_select.parameter_expression i = .ok argument) ∧
           (¬ i < two_parameter_select.parameter_count →
              two_parameter_select.parameter_expression i =
                .error "Parameter index out of range") :=
  (select_expression_arity mock_node [0, 1] [column_a, value_double]).2
    two_parameter_select rfl

theorem case_data_type_is_common_type_witness :
    (AbstractExpression.case predicate_a column_a value_double).data_type promote_to_double =
      some (promote_to_double .Int .Double) :=
  (case_data_type_is_common_type promote_to_double predicate_a column_a column_a
    value_double).1 .Int .Double rfl rfl

theorem execute_asserts_guard_on_execute_witness :
    ∃ msg, execute_asserts true active_world executed_input = .error msg ∧
      execute true constant_hooks active_world 0 = .error msg :=
  (execute_asserts_guard_on_execute constant_hooks active_world 0 executed_input rfl).2.1
    (Or.inl (by decide))

theorem execute_counts_operator_witness :
    ∃ w1 w', execute true constant_hooks active_world 1 = .ok w' ∧
      w1.contexts[0]? =
        some (some { ({ aborted := false, operator_counter := 0 } : TransactionContext) with
          operator_counter :=
            ({ aborted := false, operator_counter := 0 } : TransactionContext).operator_counter
              + 1 }) ∧
      w'.calls = active_world.calls ++
        [.on_operator_started 0,
         ._on_execute 1 (some 0) (constant_hooks._on_execute 1 (some 0) w1),
         .on_operator_finished 0, ._on_cleanup 1] ∧
      w'.contexts[0]? = some (some { aborted := false, operator_counter := 0 }) ∧
      ∀ q, q ≠ 0 → w'.contexts[q]? = active_world.contexts[q]? :=
  (execute_counts_operator true constant_hooks active_world 1 pending_operator 0
    { aborted := false, operator_counter := 0 } rfl rfl rfl
    (fun _ => ⟨fun l hl => ⟨executed_input, { column_count := 1, chunks := [3] },
        (by cases hl; rfl), rfl, (by decide)⟩,
      fun r hr => (by cases hr), rfl⟩)).1 rfl

theorem clear_output_always_clears_witness :
    ∃ w', clear_output active_world 0 = .ok w' ∧
      w'.operators[0]? = some { executed_input with _output := none } ∧
      stored_output w' 0 = none ∧
      (∀ i, i ≠ 0 → w'.operators[i]? = active_world.operators[i]?) ∧
      w'.contexts = active_world.contexts ∧ w'.calls = active_world.calls :=
  clear_output_always_clears active_world 0 executed_input rfl

theorem schedule_after_shut_down_fails_witness :
    NodeQueueScheduler.schedule true 1000 none shut_down_scheduler ready_task 0 .Default =
      .error "Can't schedule more tasks after the NodeQueueScheduler was shut down" :=
  (schedule_after_shut_down_fails 1000 none shut_down_scheduler ready_task 0 .Default rfl).1

theorem index_scan_follows_selectivity_threshold_witness :
    IndexScanRule (storage_with 1000000 [⟨.GroupKey, [2]⟩])
        (.unary 1
          (.Predicate
            { column := ⟨0, 2⟩, predicate_condition := .GreaterThan,
              value := .value 19900, scan_type := .TableScan })
          (.leaf 0 (.StoredTable "a"))) =
      .unary 1
        (.Predicate
          { column := ⟨0, 2⟩, predicate_condition := .GreaterThan,
            value := .value 19900, scan_type := .IndexScan })
        (.leaf 0 (.StoredTable "a")) :=
  (index_scan_follows_selectivity_threshold (storage_with 1000000 [⟨.GroupKey, [2]⟩]) "a"
    { table_statistics := generate_mock_statistics 1000000, indexes := [⟨.GroupKey, [2]⟩] }
    0 1 2 .GreaterThan 19900 rfl (by decide)).1 (by decide)

theorem empty_chunk_check_never_fails_witness :
    get_output true empty_chunk_world 0 = .ok (some table_with_empty_chunk) :=
  (empty_chunk_check_never_fails true empty_chunk_world 0
    { _type := 1, _input_left := none, _input_right := none,
      _output := some table_with_empty_chunk, _transaction_context := none } rfl
    (fun t ht => by cases ht; decide)).2.2.1

end opossum
